import Mathlib

/-!
# skills-handler: verification of the request router and validation pipeline

A shallow embedding of the `skills-handler` TypeScript package:
the naming/path validators and the content-type table (`src/types.ts`,
`src/handler/index.ts`), the request handler produced by
`createSkillsHandler` (path normalization, route matching, response
rendering, event emission), and the composite provider combinator
(`src/lib/providers.ts`).

Modelling conventions:
* JavaScript strings are modelled as Lean `String`s viewed as their
  character lists (`String.data`); the JS operations used by the code
  (`startsWith`, `endsWith`, `slice`, `split`, `includes`, regexes) are
  re-implemented over character lists.
* `async` code and exceptions are modelled with `Except String`; a
  thrown/rejected JS error is `.error msg`.
* The provider is a record of two (possibly failing) operations, one
  snapshot per request, matching the single awaited call per request phase.
* The event sink `onEvent` is modelled by an optional function
  `SkillsEvent → Bool` telling, for each event, whether the sink throws
  when invoked on it (`true` = throws).
* `Date.now()` is modelled by an explicit `now : Nat` argument.
* `console.log` output (the `verboseLogs` option) is ignored: it does not
  affect control flow.
-/

set_option autoImplicit false

namespace SkillsHandler

/-! ## JavaScript string primitives (over character lists) -/

/-- JS `s.startsWith(pre)`. -/
def strStartsWith (s pre : String) : Bool := pre.data.isPrefixOf s.data

/-- JS `s.endsWith(suf)`. -/
def strEndsWith (s suf : String) : Bool := suf.data.isSuffixOf s.data

/-- JS `s.slice(n)`. -/
def strDrop (s : String) (n : Nat) : String := String.mk (s.data.drop n)

/-- JS `s.slice(0, -n)` for `n ≤ s.length`. -/
def strDropRight (s : String) (n : Nat) : String :=
  String.mk (s.data.take (s.data.length - n))

/-- Scans a character list for the two-character substring `xy`
    (JS `s.includes("xy")` for two-character needles). -/
def hasPair (x y : Char) : List Char → Bool
  | [] => false
  | [_] => false
  | a :: b :: rest => (a == x && b == y) || hasPair x y (b :: rest)

/-- ASCII model of JS `String.prototype.toUpperCase` (the handler only
    uppercases HTTP method names). -/
def jsToUpper (s : String) : String := String.mk (s.data.map Char.toUpper)

/-- ASCII model of JS `String.prototype.toLowerCase` (applied to file
    extensions before the content-type table lookup). -/
def jsToLower (s : String) : String := String.mk (s.data.map Char.toLower)

/-! ## Validators (`src/types.ts`) -/

/-- The character class `[a-z0-9-]` of `SKILL_NAME_PATTERN`. -/
def isSkillNameChar (c : Char) : Bool :=
  ('a' ≤ c && c ≤ 'z') || ('0' ≤ c && c ≤ '9') || c == '-'

/--
`isValidSkillName` from `src/types.ts`, testing the anchored regex
`SKILL_NAME_PATTERN = /^(?!-)(?!.*--)[a-z0-9-]{1,64}(?<!-)$/`:
the whole string is 1–64 characters of the class `[a-z0-9-]`,
the `(?!-)` lookahead forbids a leading hyphen, the `(?<!-)` lookbehind
forbids a trailing hyphen, and the `(?!.*--)` lookahead forbids the
substring `--` (any string matching the character class part contains no
line terminators, so the `.` in the lookahead scans the whole string).
-/
def isValidSkillName (name : String) : Bool :=
  let cs := name.data
  decide (1 ≤ cs.length) && decide (cs.length ≤ 64) &&
  cs.all isSkillNameChar &&
  cs.head? != some '-' &&
  cs.getLast? != some '-' &&
  !hasPair '-' '-' cs

/-- The character class `[?#\[\]\x00-\x1f\x7f-\xff]` of the `invalidChars`
    regex in `isValidFilePath` (code points above `0xff` are not matched,
    exactly as in the source). -/
def isInvalidPathChar (c : Char) : Bool :=
  c == '?' || c == '#' || c == '[' || c == ']' ||
  decide (c.toNat ≤ 0x1f) ||
  (decide (0x7f ≤ c.toNat) && decide (c.toNat ≤ 0xff))

/-- `isValidFilePath` from `src/types.ts`: rejects the empty string, a
    leading `/`, the substring `..`, any backslash, and any character of
    `isInvalidPathChar`; accepts everything else. -/
def isValidFilePath (path : String) : Bool :=
  if path.data.length == 0 then false
  else if strStartsWith path "/" then false
  else if hasPair '.' '.' path.data then false
  else if path.data.contains '\\' then false
  else if path.data.any isInvalidPathChar then false
  else true

/-! ## Content-type resolver (`getContentType` in `src/handler/index.ts`) -/

/-- JS `String.prototype.split(".")`: cuts at every `'.'`, producing one
    more piece than there are dots (pieces may be empty). -/
def splitDot : List Char → List (List Char)
  | [] => [[]]
  | c :: rest =>
    if c == '.' then [] :: splitDot rest
    else
      match splitDot rest with
      | [] => [[c]]
      | p :: ps => (c :: p) :: ps

/-- The static extension table of `getContentType`. -/
def contentTypesTable : List (String × String) :=
  [ ("md", "text/markdown; charset=utf-8"),
    ("markdown", "text/markdown; charset=utf-8"),
    ("json", "application/json"),
    ("yaml", "text/yaml; charset=utf-8"),
    ("yml", "text/yaml; charset=utf-8"),
    ("txt", "text/plain; charset=utf-8"),
    ("py", "text/x-python; charset=utf-8"),
    ("js", "text/javascript; charset=utf-8"),
    ("ts", "text/typescript; charset=utf-8"),
    ("sh", "text/x-shellscript; charset=utf-8"),
    ("bash", "text/x-shellscript; charset=utf-8"),
    ("html", "text/html; charset=utf-8"),
    ("css", "text/css; charset=utf-8"),
    ("xml", "application/xml") ]

/-- The own property names of JavaScript's `Object.prototype`. The
    `contentTypes` table in the source is an object literal, so an index
    miss on its own keys falls through the prototype chain to these
    inherited members — functions, and for `__proto__` an accessor yielding
    the prototype object — none of which are nullish, so the
    `?? "text/plain; charset=utf-8"` fallback does not fire on them. -/
def objectPrototypeKeys : List String :=
  ["constructor", "hasOwnProperty", "isPrototypeOf", "propertyIsEnumerable",
   "toLocaleString", "toString", "valueOf", "__proto__", "__defineGetter__",
   "__defineSetter__", "__lookupGetter__", "__lookupSetter__"]

/-- The value `contentTypes[ext] ?? "text/plain; charset=utf-8"` evaluates
    to: either a string (an own table entry, or the fallback), or — when
    `ext` names an `Object.prototype` member — that inherited non-string
    member, identified by its key. -/
inductive ContentTypeValue where
  | str (s : String)
  | protoMember (key : String)
deriving DecidableEq, Repr

/-- The text that ends up in the `Content-Type` header slot for a looked-up
    value: a string value is used as-is; the precise stringification the
    `Headers` constructor applies to an inherited `Object.prototype` member
    is JS-runtime behaviour outside this repository and is represented
    opaquely by the member's key. -/
def ContentTypeValue.headerString : ContentTypeValue → String
  | .str s => s
  | .protoMember key => "[Object.prototype." ++ key ++ "]"

/-- `getContentType` from `src/handler/index.ts`:
    `filePath.split(".").pop()?.toLowerCase()` indexed into the object
    literal `contentTypes`, with `?? "text/plain; charset=utf-8"`. `split`
    always returns a non-empty array, so `pop()` is never `undefined`. An
    own key yields its MIME string; a key naming an `Object.prototype`
    member leaks that inherited non-string member (which is not nullish, so
    the fallback does not apply); any other key yields the fallback. -/
def getContentType (filePath : String) : ContentTypeValue :=
  let ext := jsToLower (String.mk ((splitDot filePath.data).getLastD []))
  match contentTypesTable.find? (fun kv => kv.1 == ext) with
  | some kv => .str kv.2
  | none =>
    if objectPrototypeKeys.contains ext then .protoMember ext
    else .str "text/plain; charset=utf-8"

/-! ## Data model (`src/types.ts`) -/

/-- A skill bundle (`Skill` in `src/types.ts`). -/
structure Skill where
  name : String
  description : String
  body : String
  files : List String
deriving DecidableEq, Repr

/-- The event type tags (`SkillsEventType`). -/
inductive SkillsEventType where
  | INDEX_REQUESTED
  | SKILL_REQUESTED
  | FILE_REQUESTED
  | NOT_FOUND
  | ERROR
deriving DecidableEq, Repr

/-- An emitted event (`SkillsEvent`): the `type`/`timestamp`/`path` base
    plus the optional type-specific fields. `errorMsg` models the `error`
    object of an `ERROR` event by its message; `ctxSkillName`/`ctxFilePath`
    model its optional `context` record. -/
structure SkillsEvent where
  type : SkillsEventType
  timestamp : Nat
  path : String
  skillName : Option String := none
  filePath : Option String := none
  skillCount : Option Nat := none
  errorMsg : Option String := none
  ctxSkillName : Option String := none
  ctxFilePath : Option String := none
deriving DecidableEq, Repr

/-- The `cors` configuration field: a single origin string, an explicit
    origin list, or `false` (disabled). -/
inductive CorsConfig where
  | single (origin : String)
  | origins (list : List String)
  | disabled
deriving DecidableEq, Repr

/-- `SkillsHandlerConfig`, with the defaults resolved in
    `createSkillsHandler`. The `verboseLogs` flag only controls
    `console.log` output and is omitted; the `onEvent` callback is passed
    separately to the handler model. -/
structure SkillsHandlerConfig where
  basePath : String := "/.well-known/skills"
  cacheControl : String := "public, max-age=3600"
  cors : CorsConfig := .single "*"
deriving Repr

/-- A provider snapshot for one request: `getSkills` and `getSkillFile`,
    each of which may throw/reject (`.error`). -/
structure SkillProvider where
  getSkills : Except String (List Skill)
  getSkillFile : String → String → Except String (Option String)

/-- An abstract HTTP request: method, origin (scheme + host of the request
    URL) and URL path. -/
structure Request where
  method : String
  origin : String
  pathname : String
deriving DecidableEq, Repr

/-- An abstract HTTP response: status, header list in insertion order,
    optional body. -/
structure Response where
  status : Nat
  headers : List (String × String)
  body : Option String
deriving DecidableEq, Repr

/-- The event sink: `none` when no `onEvent` callback is configured;
    `some throws` where `throws e = true` means the callback throws when
    invoked on `e`. -/
def EventSink := Option (SkillsEvent → Bool)

/-! ## JSON bodies -/

/-- The uniform JSON error body `JSON.stringify({error: msg})`. -/
def jsonError (msg : String) : String :=
  "\x7b\"error\":\"" ++ msg ++ "\"\x7d"

/-- Two lowercase hex digits of `n % 256`. -/
def hex2 (n : Nat) : String :=
  let digit := fun (k : Nat) =>
    if k < 10 then Char.ofNat (48 + k) else Char.ofNat (87 + k)
  String.mk [digit (n / 16 % 16), digit (n % 16)]

/-- JSON string escaping as performed by `JSON.stringify`. -/
def jsonEscapeChar (c : Char) : String :=
  if c = '"' then "\\\""
  else if c = '\\' then "\\\\"
  else if c = '\n' then "\\n"
  else if c = '\r' then "\\r"
  else if c = '\t' then "\\t"
  else if c.toNat = 8 then "\\b"
  else if c.toNat = 12 then "\\f"
  else if c.toNat < 32 then "\\u00" ++ hex2 c.toNat
  else String.mk [c]

/-- A JSON string literal for `s`. -/
def jsonString (s : String) : String :=
  "\"" ++ (s.data.map jsonEscapeChar).foldl (fun a b => a ++ b) "" ++ "\""

/-- Joins strings with a separator (JS `Array.prototype.join`). -/
def joinSep (sep : String) : List String → String
  | [] => ""
  | [x] => x
  | x :: xs => x ++ sep ++ joinSep sep xs

/-- The `files` array of one index entry, pretty-printed at depth 3 of
    `JSON.stringify(index, null, 2)`. -/
def filesJson (files : List String) : String :=
  if files.isEmpty then "[]"
  else "[\n" ++ joinSep ",\n" (files.map (fun f => "        " ++ jsonString f)) ++
       "\n      ]"

/-- One `SkillIndexEntry` object of the pretty-printed index: only `name`,
    `description` and `files` are projected (no `body`). -/
def skillEntryJson (s : Skill) : String :=
  "\x7b\n      \"name\": " ++ jsonString s.name ++
  ",\n      \"description\": " ++ jsonString s.description ++
  ",\n      \"files\": " ++ filesJson s.files ++ "\n    \x7d"

/-- `JSON.stringify(index, null, 2)` for the `SkillIndex` built in
    `serveIndex`. -/
def indexJson (skills : List Skill) : String :=
  if skills.isEmpty then "\x7b\n  \"skills\": []\n\x7d"
  else
    "\x7b\n  \"skills\": [\n" ++
    joinSep ",\n" (skills.map (fun s => "    " ++ skillEntryJson s)) ++
    "\n  ]\n\x7d"

/-! ## Headers and basic responses (`createSkillsHandler` internals) -/

/-- `createHeaders`: `Content-Type` and `Cache-Control` always; the three
    CORS headers exactly when `cors !== false`, with the origin list joined
    by `", "`. -/
def createHeaders (cfg : SkillsHandlerConfig) (contentType : String) :
    List (String × String) :=
  [("Content-Type", contentType), ("Cache-Control", cfg.cacheControl)] ++
  (match cfg.cors with
   | .disabled => []
   | .single o =>
     [("Access-Control-Allow-Origin", o),
      ("Access-Control-Allow-Methods", "GET, HEAD, OPTIONS"),
      ("Access-Control-Allow-Headers", "Content-Type")]
   | .origins l =>
     [("Access-Control-Allow-Origin", joinSep ", " l),
      ("Access-Control-Allow-Methods", "GET, HEAD, OPTIONS"),
      ("Access-Control-Allow-Headers", "Content-Type")])

/-- A JSON response with the standard headers. -/
def jsonResponse (cfg : SkillsHandlerConfig) (status : Nat) (body : String) :
    Response :=
  { status := status, headers := createHeaders cfg "application/json",
    body := some body }

/-- `handleOptions`: the 204 CORS preflight response (no body,
    `Content-Length: 0` appended). -/
def handleOptions (cfg : SkillsHandlerConfig) : Response :=
  { status := 204,
    headers := createHeaders cfg "text/plain" ++ [("Content-Length", "0")],
    body := none }

/-- `createRedirect`: a 302 whose `Location` is resolved against the
    requesting origin; note that it carries only the `Location` header
    (it does not go through `createHeaders`). -/
def createRedirect (req : Request) (path : String) : Response :=
  { status := 302, headers := [("Location", req.origin ++ path)], body := none }

/-- `reconstructSkillMd`: the SKILL.md document rebuilt from a skill. -/
def reconstructSkillMd (skill : Skill) : String :=
  let frontmatter :=
    "---\nname: " ++ skill.name ++ "\ndescription: " ++ skill.description ++
    "\n---"
  frontmatter ++ "\n\n" ++ skill.body

/-! ## Event emission -/

/-- One `emitEvent` call: with no callback nothing happens; with a callback
    the event is delivered, and the sink's exception (if any) propagates —
    there is no failure boundary around the invocation in the source.
    Returns the list of successfully delivered events. -/
def runEmit (sink : EventSink) (e : SkillsEvent) : Except String (List SkillsEvent) :=
  match sink with
  | none => .ok []
  | some throws => if throws e then .error "event sink threw" else .ok [e]

/-- The shared `catch` block of `serveIndex`/`serveSkillMd`/`serveSkillFile`:
    emit an `ERROR` event (whose own failure propagates out of the `catch`)
    and answer 500 `{error: "Internal server error"}`. -/
def serveCatch (cfg : SkillsHandlerConfig) (sink : EventSink) (now : Nat)
    (requestPath errMsg : String) (ctxSkillName ctxFilePath : Option String) :
    Except String (Response × List SkillsEvent) :=
  match runEmit sink
      { type := .ERROR, timestamp := now, path := requestPath,
        errorMsg := some errMsg, ctxSkillName := ctxSkillName,
        ctxFilePath := ctxFilePath } with
  | .error m => .error m
  | .ok evs => .ok (jsonResponse cfg 500 (jsonError "Internal server error"), evs)

/-! ## Route handlers -/

/-- `serveIndex`: list the skills, emit `INDEX_REQUESTED`, answer the
    pretty-printed index; any error caught in the `try` lands in the shared
    `catch` block. -/
def serveIndex (provider : SkillProvider) (cfg : SkillsHandlerConfig)
    (sink : EventSink) (now : Nat) (requestPath : String) :
    Except String (Response × List SkillsEvent) :=
  match provider.getSkills with
  | .error m => serveCatch cfg sink now requestPath m none none
  | .ok skills =>
    match runEmit sink
        { type := .INDEX_REQUESTED, timestamp := now, path := requestPath,
          skillCount := some skills.length } with
    | .error m => serveCatch cfg sink now requestPath m none none
    | .ok evs =>
      .ok ({ status := 200, headers := createHeaders cfg "application/json",
             body := some (indexJson skills) }, evs)

/-- `serveSkillMd`: look the skill up by exact name in the provider's list;
    404 + `NOT_FOUND` when absent, else 200 with the reconstructed document
    and a `SKILL_REQUESTED` event; errors land in the shared `catch`. -/
def serveSkillMd (provider : SkillProvider) (cfg : SkillsHandlerConfig)
    (sink : EventSink) (now : Nat) (skillName requestPath : String) :
    Except String (Response × List SkillsEvent) :=
  match provider.getSkills with
  | .error m => serveCatch cfg sink now requestPath m (some skillName) none
  | .ok skills =>
    match skills.find? (fun s => s.name == skillName) with
    | none =>
      match runEmit sink
          { type := .NOT_FOUND, timestamp := now, path := requestPath,
            skillName := some skillName } with
      | .error m => serveCatch cfg sink now requestPath m (some skillName) none
      | .ok evs => .ok (jsonResponse cfg 404 (jsonError "Skill not found"), evs)
    | some skill =>
      match runEmit sink
          { type := .SKILL_REQUESTED, timestamp := now, path := requestPath,
            skillName := some skillName } with
      | .error m => serveCatch cfg sink now requestPath m (some skillName) none
      | .ok evs =>
        .ok ({ status := 200,
               headers := createHeaders cfg "text/markdown; charset=utf-8",
               body := some (reconstructSkillMd skill) }, evs)

/-- `serveSkillFile`: single-file provider lookup; `null` gives 404 +
    `NOT_FOUND`, content gives 200 with the extension-derived content type
    and a `FILE_REQUESTED` event; errors land in the shared `catch`. -/
def serveSkillFile (provider : SkillProvider) (cfg : SkillsHandlerConfig)
    (sink : EventSink) (now : Nat) (skillName filePath requestPath : String) :
    Except String (Response × List SkillsEvent) :=
  match provider.getSkillFile skillName filePath with
  | .error m =>
    serveCatch cfg sink now requestPath m (some skillName) (some filePath)
  | .ok none =>
    match runEmit sink
        { type := .NOT_FOUND, timestamp := now, path := requestPath,
          skillName := some skillName, filePath := some filePath } with
    | .error m =>
      serveCatch cfg sink now requestPath m (some skillName) (some filePath)
    | .ok evs => .ok (jsonResponse cfg 404 (jsonError "File not found"), evs)
  | .ok (some content) =>
    match runEmit sink
        { type := .FILE_REQUESTED, timestamp := now, path := requestPath,
          skillName := some skillName, filePath := some filePath } with
    | .error m =>
      serveCatch cfg sink now requestPath m (some skillName) (some filePath)
    | .ok evs =>
      .ok ({ status := 200,
             headers := createHeaders cfg (getContentType filePath).headerString,
             body := some content }, evs)

/-! ## Path normalization and route matching -/

/-- `basePath.replace(/\/$/, "")`: removes one trailing slash. -/
def stripTrailingSlash (s : String) : String :=
  if strEndsWith s "/" then strDropRight s 1 else s

/-- The relative-path computation of the handler: strip the normalized base
    path when it is a (raw string) prefix, otherwise keep the whole path;
    ensure a leading `/`; drop one trailing `/` unless the remainder is
    exactly `/`. -/
def relativePathOf (normBase fullPath : String) : String :=
  let rel :=
    if strStartsWith fullPath normBase then strDrop fullPath normBase.data.length
    else fullPath
  let rel := if strStartsWith rel "/" then rel else "/" ++ rel
  if decide (1 < rel.data.length) && strEndsWith rel "/" then strDropRight rel 1
  else rel

/-- Splits a character list at its first `'/'`; `none` when there is no
    slash. -/
def breakSlash : List Char → Option (List Char × List Char)
  | [] => none
  | c :: rest =>
    if c == '/' then some ([], rest)
    else (breakSlash rest).map (fun p => (c :: p.1, p.2))

/-- Is `c` matched by `.` in a JS regex (no `s` flag)? Line terminators are
    excluded. -/
def jsDotChar (c : Char) : Bool :=
  !(c == '\n' || c == '\r' || c.toNat == 0x2028 || c.toNat == 0x2029)

/-- The match `/^\/([^/]+)\/SKILL\.md$/`: a leading slash, a non-empty
    slash-free segment, then exactly `/SKILL.md`. -/
def skillMdMatch (p : String) : Option String :=
  match p.data with
  | '/' :: rest =>
    match breakSlash rest with
    | some (seg, fp) =>
      if decide (0 < seg.length) && fp == "SKILL.md".data then
        some (String.mk seg)
      else none
    | none => none
  | _ => none

/-- The match `/^\/([^/]+)\/(.+)$/`: a leading slash, a non-empty slash-free
    segment, a slash, then a non-empty rest that `.` can match (so without
    line terminators). -/
def skillFileMatch (p : String) : Option (String × String) :=
  match p.data with
  | '/' :: rest =>
    match breakSlash rest with
    | some (seg, fp) =>
      if decide (0 < seg.length) && decide (0 < fp.length) && fp.all jsDotChar
      then some (String.mk seg, String.mk fp)
      else none
    | none => none
  | _ => none

/-- The match `/^\/([^/]+)$/`: a leading slash then a non-empty slash-free
    segment. -/
def skillDirMatch (p : String) : Option String :=
  match p.data with
  | '/' :: rest =>
    if decide (0 < rest.length) && !rest.contains '/' then some (String.mk rest)
    else none
  | _ => none

/-! ## The handler -/

/-- The final fallthrough: emit `NOT_FOUND` with only the path and answer
    404 `{error: "Not found"}`. -/
def notFoundFallthrough (cfg : SkillsHandlerConfig) (sink : EventSink)
    (now : Nat) (fullPath : String) :
    Except String (Response × List SkillsEvent) :=
  match runEmit sink { type := .NOT_FOUND, timestamp := now, path := fullPath } with
  | .error m => .error m
  | .ok evs => .ok (jsonResponse cfg 404 (jsonError "Not found"), evs)

/-- The ordered route cascade of the handler, applied to the normalized
    relative path `rel` (the body of the source handler after method gating
    and normalization, with `fullPath = req.pathname` and
    `normBase = stripTrailingSlash cfg.basePath`). -/
def routeDispatch (provider : SkillProvider) (cfg : SkillsHandlerConfig)
    (sink : EventSink) (now : Nat) (req : Request) (rel : String) :
    Except String (Response × List SkillsEvent) :=
  let fullPath := req.pathname
  let normBase := stripTrailingSlash cfg.basePath
  if rel == "/" || rel == "" then
    .ok (createRedirect req (normBase ++ "/index.json"), [])
  else if rel == "/index.json" then serveIndex provider cfg sink now fullPath
  else
    match skillMdMatch rel with
    | some skillName =>
      if isValidSkillName skillName then
        serveSkillMd provider cfg sink now skillName fullPath
      else
        match runEmit sink
            { type := .NOT_FOUND, timestamp := now, path := fullPath,
              skillName := some skillName } with
        | .error m => .error m
        | .ok evs =>
          .ok (jsonResponse cfg 400 (jsonError "Invalid skill name"), evs)
    | none =>
      match skillFileMatch rel with
      | some (skillName, filePath) =>
        if !isValidSkillName skillName then
          match runEmit sink
              { type := .NOT_FOUND, timestamp := now, path := fullPath,
                skillName := some skillName } with
          | .error m => .error m
          | .ok evs =>
            .ok (jsonResponse cfg 400 (jsonError "Invalid skill name"), evs)
        else if !isValidFilePath filePath then
          match runEmit sink
              { type := .NOT_FOUND, timestamp := now, path := fullPath,
                skillName := some skillName, filePath := some filePath } with
          | .error m => .error m
          | .ok evs =>
            .ok (jsonResponse cfg 400 (jsonError "Invalid file path"), evs)
        else serveSkillFile provider cfg sink now skillName filePath fullPath
      | none =>
        match skillDirMatch rel with
        | some skillName =>
          if isValidSkillName skillName then
            .ok (createRedirect req
              (normBase ++ "/" ++ skillName ++ "/SKILL.md"), [])
          else notFoundFallthrough cfg sink now fullPath
        | none => notFoundFallthrough cfg sink now fullPath

/-- The handler returned by `createSkillsHandler`: OPTIONS preflight, method
    gating, base-path stripping and normalization, then the ordered route
    cascade of the source. `.error` models the handler's promise rejecting
    (which can only happen through the event sink). -/
def handlerModel (provider : SkillProvider) (cfg : SkillsHandlerConfig)
    (sink : EventSink) (now : Nat) (req : Request) :
    Except String (Response × List SkillsEvent) :=
  let method := jsToUpper req.method
  if method == "OPTIONS" then .ok (handleOptions cfg, [])
  else if method != "GET" && method != "HEAD" then
    .ok (jsonResponse cfg 405 (jsonError "Method not allowed"), [])
  else
    routeDispatch provider cfg sink now req
      (relativePathOf (stripTrailingSlash cfg.basePath) req.pathname)

/-! ## Composite provider (`createCompositeProvider` in `src/lib/providers.ts`) -/

/-- JS `Map.prototype.set` on an association list: an existing key keeps its
    position and gets the new value, a new key is appended. -/
def mapSet (m : List (String × Skill)) (k : String) (v : Skill) :
    List (String × Skill) :=
  match m with
  | [] => [(k, v)]
  | (k', v') :: rest =>
    if k' == k then (k', v) :: rest else (k', v') :: mapSet rest k v

/-- The inner loop of the composite `getSkills`: `skillMap.set(skill.name,
    skill)` for each skill of one provider. -/
def insertAll (m : List (String × Skill)) : List Skill → List (String × Skill)
  | [] => m
  | s :: rest => insertAll (mapSet m s.name s) rest

/-- The outer loop of the composite `getSkills` over the provider list; a
    failing `getSkills` rejects the whole call. -/
def compositeGo (m : List (String × Skill)) :
    List SkillProvider → Except String (List (String × Skill))
  | [] => .ok m
  | p :: rest =>
    match p.getSkills with
    | .error e => .error e
    | .ok skills => compositeGo (insertAll m skills) rest

/-- The reverse-order `getSkillFile` loop of the composite provider: later
    providers are tried first, the first non-`null` content wins. -/
def compositeFileGo (skillName filePath : String) :
    List SkillProvider → Except String (Option String)
  | [] => .ok none
  | p :: rest =>
    match p.getSkillFile skillName filePath with
    | .error e => .error e
    | .ok (some content) => .ok (some content)
    | .ok none => compositeFileGo skillName filePath rest

/-- `createCompositeProvider`: merge all providers' skills by name through
    a `Map` (later sources override earlier ones), and resolve files by
    querying providers in reverse order. -/
def createCompositeProvider (providers : List SkillProvider) : SkillProvider where
  getSkills := (compositeGo [] providers).map (fun m => m.map (fun p => p.2))
  getSkillFile := fun skillName filePath =>
    compositeFileGo skillName filePath providers.reverse

/-! ## Specification-side predicates (stated from the spec's words, to be
    compared with the source-derived definitions above) -/

/-- The skill-name grammar as the spec words it: 1–64 characters drawn from
    lowercase letters, digits and hyphen, no leading or trailing hyphen, no
    two consecutive hyphens. -/
def SkillNameGrammar (s : String) : Prop :=
  1 ≤ s.data.length ∧ s.data.length ≤ 64 ∧
  (∀ c ∈ s.data, ('a' ≤ c ∧ c ≤ 'z') ∨ ('0' ≤ c ∧ c ≤ '9') ∨ c = '-') ∧
  s.data.head? ≠ some '-' ∧
  s.data.getLast? ≠ some '-' ∧
  ¬ ['-', '-'] <:+: s.data

/-- A file-path defect in the spec's enumeration: empty, absolute, dot-dot,
    backslash, or a reserved/raw-binary character. -/
def FilePathDefect (p : String) : Prop :=
  p.data = [] ∨ p.data.head? = some '/' ∨ ['.', '.'] <:+: p.data ∨
  '\\' ∈ p.data ∨
  ∃ c ∈ p.data, c = '?' ∨ c = '#' ∨ c = '[' ∨ c = ']' ∨
    c.toNat ≤ 0x1f ∨ (0x7f ≤ c.toNat ∧ c.toNat ≤ 0xff)

/-- The content-type table as the spec enumerates it, keyed by the (already
    lowercased) extension string, with the `text/plain` fallback. -/
def mimeOfExt (e : String) : String :=
  if e = "md" ∨ e = "markdown" then "text/markdown; charset=utf-8"
  else if e = "json" then "application/json"
  else if e = "yaml" ∨ e = "yml" then "text/yaml; charset=utf-8"
  else if e = "txt" then "text/plain; charset=utf-8"
  else if e = "py" then "text/x-python; charset=utf-8"
  else if e = "js" then "text/javascript; charset=utf-8"
  else if e = "ts" then "text/typescript; charset=utf-8"
  else if e = "sh" ∨ e = "bash" then "text/x-shellscript; charset=utf-8"
  else if e = "html" then "text/html; charset=utf-8"
  else if e = "css" then "text/css; charset=utf-8"
  else if e = "xml" then "application/xml"
  else "text/plain; charset=utf-8"

/-- Specification-side value of the object-literal lookup for a (lowercased)
    key: one of the fourteen table keys yields its MIME string per
    `mimeOfExt`; a key naming an `Object.prototype` member leaks that
    inherited member; every other key yields the `text/plain` fallback. -/
def contentTypeSpec (e : String) : ContentTypeValue :=
  if e = "md" ∨ e = "markdown" ∨ e = "json" ∨ e = "yaml" ∨ e = "yml" ∨
     e = "txt" ∨ e = "py" ∨ e = "js" ∨ e = "ts" ∨ e = "sh" ∨ e = "bash" ∨
     e = "html" ∨ e = "css" ∨ e = "xml" then ContentTypeValue.str (mimeOfExt e)
  else if objectPrototypeKeys.contains e then ContentTypeValue.protoMember e
  else ContentTypeValue.str "text/plain; charset=utf-8"

/-- The in-order concatenation of all providers' skill lists (spec-side
    device: it names "the last such provider" order for the merge). -/
def flattenSkills : List SkillProvider → Except String (List Skill)
  | [] => .ok []
  | p :: rest =>
    match p.getSkills with
    | .error e => .error e
    | .ok skills => (flattenSkills rest).map (fun fl => skills ++ fl)

/-- The value stored under key `k` in an association list (the `Map.get`
    view of the merge map). -/
def findVal (m : List (String × Skill)) (k : String) : Option Skill :=
  (m.find? (fun p => p.1 == k)).map (fun p => p.2)

/-- The last skill named `n` in a list (spec side: later sources override
    earlier ones by name). -/
def lastNamed (n : String) (l : List Skill) : Option Skill :=
  (l.filter (fun s => s.name == n)).getLast?

/-- A well-behaved event sink: either none is configured, or the configured
    callback never throws. -/
def BenignSink (sink : EventSink) : Prop :=
  ∀ s e, sink = some s → s e = false

/-! ## Helper lemmas: string scanning -/

theorem hasPair_iff (x y : Char) : ∀ l : List Char,
    hasPair x y l = true ↔ [x, y] <:+: l
  | [] => by
    simp only [hasPair, List.infix_nil]
    simp
  | [a] => by
    simp only [hasPair]
    constructor
    · intro h; exact absurd h (by simp)
    · intro h
      have := h.length_le
      simp at this
  | a :: b :: rest => by
    rw [hasPair]
    constructor
    · intro h
      rcases Bool.or_eq_true _ _ |>.mp h with h1 | h2
      · obtain ⟨hx, hy⟩ := Bool.and_eq_true _ _ |>.mp h1
        have hx := eq_of_beq hx
        have hy := eq_of_beq hy
        subst hx; subst hy
        exact ⟨[], rest, rfl⟩
      · exact List.infix_cons ((hasPair_iff x y (b :: rest)).mp h2)
    · intro h
      rcases List.infix_cons_iff.mp h with h1 | h2
      · obtain ⟨t, ht⟩ := h1
        simp only [List.cons_append, List.nil_append, List.cons.injEq] at ht
        obtain ⟨hx, hy, -⟩ := ht
        subst hx; subst hy
        simp
      · have := (hasPair_iff x y (b :: rest)).mpr h2
        simp [this]

theorem singleton_isPrefixOf_iff (a : Char) (l : List Char) :
    [a].isPrefixOf l = true ↔ l.head? = some a := by
  cases l with
  | nil => simp [List.isPrefixOf]
  | cons b t =>
    simp only [List.isPrefixOf, Bool.and_eq_true, List.head?_cons,
      Option.some.injEq, beq_iff_eq]
    constructor
    · rintro ⟨h, -⟩
      exact h.symm
    · intro h
      exact ⟨h.symm, by simp [List.isPrefixOf]⟩

theorem isInvalidPathChar_iff (c : Char) :
    isInvalidPathChar c = true ↔
      c = '?' ∨ c = '#' ∨ c = '[' ∨ c = ']' ∨
      c.toNat ≤ 0x1f ∨ (0x7f ≤ c.toNat ∧ c.toNat ≤ 0xff) := by
  simp only [isInvalidPathChar, Bool.or_eq_true, Bool.and_eq_true, beq_iff_eq,
    decide_eq_true_eq]
  tauto

theorem isValidFilePath_eq_scan (p : String) :
    isValidFilePath p =
      (!(p.data.length == 0) && !(strStartsWith p "/") &&
       !(hasPair '.' '.' p.data) && !(p.data.contains '\\') &&
       !(p.data.any isInvalidPathChar)) := by
  unfold isValidFilePath
  cases hb1 : (p.data.length == 0) <;>
    cases hb2 : strStartsWith p "/" <;>
    cases hb3 : hasPair '.' '.' p.data <;>
    cases hb4 : p.data.contains '\\' <;>
    cases hb5 : p.data.any isInvalidPathChar <;>
    simp [hb1, hb2, hb3, hb4, hb5]

theorem strStartsWith_slash_iff (p : String) :
    strStartsWith p "/" = true ↔ p.data.head? = some '/' := by
  have hdata : "/".data = ['/'] := rfl
  rw [strStartsWith, hdata]
  exact singleton_isPrefixOf_iff '/' p.data

theorem isValidFilePath_iff (p : String) :
    isValidFilePath p = true ↔ ¬ FilePathDefect p := by
  rw [isValidFilePath_eq_scan]
  unfold FilePathDefect
  simp only [Bool.and_eq_true, Bool.not_eq_true']
  constructor
  · rintro ⟨⟨⟨⟨hb1, hb2⟩, hb3⟩, hb4⟩, hb5⟩ hdef
    rcases hdef with hd | hd | hd | hd | ⟨c, hc, hd⟩
    · simp [hd] at hb1
    · rw [Bool.eq_false_iff] at hb2
      exact hb2 ((strStartsWith_slash_iff p).mpr hd)
    · rw [Bool.eq_false_iff] at hb3
      exact hb3 ((hasPair_iff '.' '.' p.data).mpr hd)
    · rw [Bool.eq_false_iff] at hb4
      exact hb4 (by simpa using hd)
    · rw [Bool.eq_false_iff] at hb5
      exact hb5 (List.any_eq_true.mpr ⟨c, hc, (isInvalidPathChar_iff c).mpr hd⟩)
  · intro h
    push_neg at h
    obtain ⟨h1, h2, h3, h4, h5⟩ := h
    refine ⟨⟨⟨⟨?_, ?_⟩, ?_⟩, ?_⟩, ?_⟩
    · rw [Bool.eq_false_iff]
      intro hb
      exact h1 (List.eq_nil_of_length_eq_zero (beq_iff_eq.mp hb))
    · rw [Bool.eq_false_iff]
      intro hb
      exact h2 ((strStartsWith_slash_iff p).mp hb)
    · rw [Bool.eq_false_iff]
      intro hb
      exact h3 ((hasPair_iff '.' '.' p.data).mp hb)
    · rw [Bool.eq_false_iff]
      intro hb
      exact h4 (by simpa using hb)
    · rw [Bool.eq_false_iff]
      intro hb
      obtain ⟨c, hc, hbad⟩ := List.any_eq_true.mp hb
      rcases (isInvalidPathChar_iff c).mp hbad with hd | hd | hd | hd | hd | ⟨ha, hbb⟩
      · exact (h5 c hc).1 hd
      · exact (h5 c hc).2.1 hd
      · exact (h5 c hc).2.2.1 hd
      · exact (h5 c hc).2.2.2.1 hd
      · have := (h5 c hc).2.2.2.2.1
        omega
      · have := (h5 c hc).2.2.2.2.2
        omega

theorem isValidSkillName_iff (s : String) :
    isValidSkillName s = true ↔ SkillNameGrammar s := by
  unfold isValidSkillName SkillNameGrammar
  simp only [Bool.and_eq_true, decide_eq_true_eq, List.all_eq_true,
    bne_iff_ne, ne_eq, Bool.not_eq_true']
  constructor
  · rintro ⟨⟨⟨⟨⟨hlen1, hlen2⟩, hall⟩, hh⟩, hl⟩, hp⟩
    refine ⟨hlen1, hlen2, ?_, hh, hl, ?_⟩
    · intro c hc
      have := hall c hc
      simp only [isSkillNameChar, Bool.or_eq_true, Bool.and_eq_true,
        decide_eq_true_eq, beq_iff_eq] at this
      tauto
    · intro hinf
      rw [← hasPair_iff] at hinf
      exact absurd hinf (Bool.eq_false_iff.mp hp)
  · rintro ⟨hlen1, hlen2, hall, hh, hl, hinf⟩
    refine ⟨⟨⟨⟨⟨hlen1, hlen2⟩, ?_⟩, hh⟩, hl⟩, ?_⟩
    · intro c hc
      have := hall c hc
      simp only [isSkillNameChar, Bool.or_eq_true, Bool.and_eq_true,
        decide_eq_true_eq, beq_iff_eq]
      tauto
    · rw [Bool.eq_false_iff]
      intro hb
      exact hinf ((hasPair_iff '-' '-' s.data).mp hb)

/-! ## Helper lemmas: splitting on dots -/

theorem splitDot_no_dot (l : List Char) (h : '.' ∉ l) : splitDot l = [l] := by
  induction l with
  | nil => rfl
  | cons c rest ih =>
    have hc : c ≠ '.' := fun hcc => h (List.mem_cons.mpr (Or.inl hcc.symm))
    rw [splitDot, if_neg (by simp [hc]),
      ih (fun hm => h (List.mem_cons_of_mem c hm))]

theorem splitDot_append_dot (pre : List Char) (key : List Char)
    (h : '.' ∉ key) :
    ∃ parts, parts ≠ [] ∧ splitDot (pre ++ '.' :: key) = parts ++ [key] := by
  induction pre with
  | nil =>
    refine ⟨[[]], by simp, ?_⟩
    rw [List.nil_append, splitDot, if_pos (by simp), splitDot_no_dot key h]
    rfl
  | cons c pre' ih =>
    obtain ⟨parts, hne, hsp⟩ := ih
    by_cases hc : c = '.'
    · subst hc
      refine ⟨[] :: parts, by simp, ?_⟩
      rw [List.cons_append, splitDot, if_pos (by simp), hsp]
      rfl
    · cases parts with
      | nil => exact absurd rfl hne
      | cons q qs =>
        refine ⟨(c :: q) :: qs, by simp, ?_⟩
        rw [List.cons_append, splitDot, if_neg (by simp [hc]), hsp]
        rfl

theorem value_lookup_eq (e : String) :
    (match contentTypesTable.find? (fun kv => kv.1 == e) with
      | some kv => ContentTypeValue.str kv.2
      | none =>
        if objectPrototypeKeys.contains e then ContentTypeValue.protoMember e
        else ContentTypeValue.str "text/plain; charset=utf-8") =
      contentTypeSpec e := by
  by_cases h1 : e = "md"
  · subst h1; decide
  by_cases h2 : e = "markdown"
  · subst h2; decide
  by_cases h3 : e = "json"
  · subst h3; decide
  by_cases h4 : e = "yaml"
  · subst h4; decide
  by_cases h5 : e = "yml"
  · subst h5; decide
  by_cases h6 : e = "txt"
  · subst h6; decide
  by_cases h7 : e = "py"
  · subst h7; decide
  by_cases h8 : e = "js"
  · subst h8; decide
  by_cases h9 : e = "ts"
  · subst h9; decide
  by_cases h10 : e = "sh"
  · subst h10; decide
  by_cases h11 : e = "bash"
  · subst h11; decide
  by_cases h12 : e = "html"
  · subst h12; decide
  by_cases h13 : e = "css"
  · subst h13; decide
  by_cases h14 : e = "xml"
  · subst h14; decide
  have f : ∀ k : String, e ≠ k → (k == e) = false := by
    intro k hk
    rw [beq_eq_false_iff_ne]
    exact fun hkk => hk hkk.symm
  simp only [contentTypesTable, List.find?_cons, List.find?_nil,
    f "md" h1, f "markdown" h2, f "json" h3, f "yaml" h4, f "yml" h5,
    f "txt" h6, f "py" h7, f "js" h8, f "ts" h9, f "sh" h10, f "bash" h11,
    f "html" h12, f "css" h13, f "xml" h14, Bool.cond_false]
  simp [contentTypeSpec, h1, h2, h3, h4, h5, h6, h7, h8, h9, h10, h11, h12,
    h13, h14]

/-! ## Helper lemmas: the composite merge map -/

theorem optOr_none {α : Type} (o : Option α) : o.or none = o := by
  cases o <;> rfl

theorem optOr_some_absorb {α : Type} (x : Option α) (a : α) (y : Option α) :
    (x.or (some a)).or y = x.or (some a) := by
  cases x <;> rfl

theorem getLast?_cons_or {α : Type} (a : α) (l : List α) :
    (a :: l).getLast? = l.getLast?.or (some a) := by
  cases l with
  | nil => rfl
  | cons b t =>
    rw [List.getLast?_cons_cons]
    have hne : (b :: t).getLast?.isSome = true :=
      List.getLast?_isSome.mpr (by simp)
    obtain ⟨x, hx⟩ := Option.isSome_iff_exists.mp hne
    rw [hx]
    rfl

theorem mapSet_fst (m : List (String × Skill)) (k : String) (v : Skill) :
    (mapSet m k v).map Prod.fst =
      if k ∈ m.map Prod.fst then m.map Prod.fst
      else m.map Prod.fst ++ [k] := by
  induction m with
  | nil => simp [mapSet]
  | cons q rest ih =>
    obtain ⟨k', v'⟩ := q
    by_cases hk : k' = k
    · subst hk
      rw [mapSet, if_pos (by simp)]
      rw [if_pos (by simp)]
      simp
    · rw [mapSet, if_neg (by simp [hk])]
      simp only [List.map_cons]
      rw [ih]
      have hcond : (k ∈ k' :: rest.map Prod.fst) ↔ k ∈ rest.map Prod.fst := by
        rw [List.mem_cons]
        constructor
        · rintro (h | h)
          · exact absurd h.symm hk
          · exact h
        · exact Or.inr
      by_cases hmem : k ∈ rest.map Prod.fst
      · rw [if_pos hmem, if_pos (hcond.mpr hmem)]
      · rw [if_neg hmem, if_neg (fun hc => hmem (hcond.mp hc))]
        simp

theorem mapSet_nodup (m : List (String × Skill)) (k : String) (v : Skill)
    (h : (m.map Prod.fst).Nodup) : ((mapSet m k v).map Prod.fst).Nodup := by
  rw [mapSet_fst]
  split
  · exact h
  · next hmem =>
    rw [List.nodup_append]
    refine ⟨h, by simp, ?_⟩
    intro a ha hb
    rw [List.mem_singleton] at hb
    subst hb
    exact hmem ha

theorem mapSet_names (k : String) (v : Skill) (hv : k = v.name) :
    ∀ m : List (String × Skill), (∀ p ∈ m, p.1 = p.2.name) →
      ∀ p ∈ mapSet m k v, p.1 = p.2.name := by
  intro m
  induction m with
  | nil =>
    intro _ p hp
    simp only [mapSet, List.mem_singleton] at hp
    subst hp
    exact hv
  | cons q rest ih =>
    intro hm p hp
    obtain ⟨k', v'⟩ := q
    rw [mapSet] at hp
    by_cases hk : (k' == k) = true
    · rw [if_pos hk] at hp
      rcases List.mem_cons.mp hp with h | h
      · subst h
        exact (beq_iff_eq.mp hk).trans hv
      · exact hm p (List.mem_cons_of_mem _ h)
    · rw [if_neg hk] at hp
      rcases List.mem_cons.mp hp with h | h
      · subst h
        exact hm (k', v') (List.mem_cons_self _ _)
      · exact ih (fun q hq => hm q (List.mem_cons_of_mem _ hq)) p h

theorem findVal_mapSet_self (m : List (String × Skill)) (k : String) (v : Skill) :
    findVal (mapSet m k v) k = some v := by
  induction m with
  | nil => simp [mapSet, findVal, List.find?]
  | cons q rest ih =>
    obtain ⟨k', v'⟩ := q
    by_cases hk : (k' == k) = true
    · rw [mapSet, if_pos hk]
      simp [findVal, List.find?_cons, hk]
    · rw [mapSet, if_neg hk]
      have hb : (k' == k) = false := Bool.eq_false_iff.mpr hk
      simp only [findVal, List.find?_cons, hb]
      simpa [findVal] using ih

theorem findVal_mapSet_other (m : List (String × Skill)) (k : String) (v : Skill)
    (k' : String) (h : k' ≠ k) :
    findVal (mapSet m k v) k' = findVal m k' := by
  induction m with
  | nil =>
    have hkk : (k == k') = false := beq_eq_false_iff_ne.mpr (Ne.symm h)
    simp [mapSet, findVal, List.find?_cons, hkk, List.find?_nil]
  | cons q rest ih =>
    obtain ⟨k1, v1⟩ := q
    by_cases hk : (k1 == k) = true
    · rw [mapSet, if_pos hk]
      cases hc : (k1 == k') with
      | true =>
        exact absurd ((beq_iff_eq.mp hc).symm.trans (beq_iff_eq.mp hk)) h
      | false => simp [findVal, List.find?_cons, hc]
    · rw [mapSet, if_neg hk]
      cases hc : (k1 == k') with
      | true => simp [findVal, List.find?_cons, hc]
      | false =>
        simp only [findVal, List.find?_cons, hc]
        simpa [findVal] using ih

theorem findVal_insertAll (k : String) :
    ∀ (l : List Skill) (m : List (String × Skill)),
      findVal (insertAll m l) k = (lastNamed k l).or (findVal m k)
  | [], m => by
    simp [insertAll, lastNamed, List.filter_nil, Option.or]
  | s :: rest, m => by
    rw [insertAll, findVal_insertAll k rest (mapSet m s.name s)]
    by_cases hs : s.name = k
    · have h1 : findVal (mapSet m s.name s) k = some s :=
        hs ▸ findVal_mapSet_self m s.name s
      rw [h1]
      have h2 : lastNamed k (s :: rest) =
          ((rest.filter (fun t => t.name == k)).getLast?).or (some s) := by
        unfold lastNamed
        rw [List.filter_cons_of_pos (by simp [hs]), getLast?_cons_or]
      rw [h2, optOr_some_absorb]
      rfl
    · have h1 : findVal (mapSet m s.name s) k = findVal m k :=
        findVal_mapSet_other m s.name s k (fun hc => hs hc.symm)
      rw [h1]
      have h2 : lastNamed k (s :: rest) = lastNamed k rest := by
        unfold lastNamed
        rw [List.filter_cons_of_neg (by simp [hs])]
      rw [h2]

theorem mem_snd_iff_findVal (sk : Skill) :
    ∀ m : List (String × Skill), (m.map Prod.fst).Nodup →
      (∀ p ∈ m, p.1 = p.2.name) →
      (sk ∈ m.map Prod.snd ↔ findVal m sk.name = some sk) := by
  intro m
  induction m with
  | nil =>
    intro _ _
    simp [findVal, List.find?]
  | cons q rest ih =>
    intro hnd hnm
    obtain ⟨k1, v1⟩ := q
    have hk1 : k1 = v1.name := hnm (k1, v1) (List.mem_cons_self _ _)
    have hnd2 : (k1 :: rest.map Prod.fst).Nodup := by
      simpa only [List.map_cons] using hnd
    have hnd' : k1 ∉ rest.map Prod.fst ∧ (rest.map Prod.fst).Nodup :=
      List.nodup_cons.mp hnd2
    constructor
    · intro h
      have h2 : sk ∈ v1 :: rest.map Prod.snd := by
        simpa only [List.map_cons] using h
      rcases List.mem_cons.mp h2 with h | h
      · subst h
        have hb : (k1 == sk.name) = true := beq_iff_eq.mpr hk1
        simp [findVal, List.find?_cons, hb]
      · have hrec := (ih hnd'.2 (fun p hp => hnm p (List.mem_cons_of_mem _ hp))).mp h
        have hk1ne : k1 ≠ sk.name := by
          intro he
          apply hnd'.1
          rw [he]
          obtain ⟨p, hp, hpe⟩ := List.mem_map.mp h
          have hpn := hnm p (List.mem_cons_of_mem _ hp)
          exact List.mem_map.mpr ⟨p, hp, by rw [hpn, hpe]⟩
        have hb : (k1 == sk.name) = false := beq_eq_false_iff_ne.mpr hk1ne
        simp only [findVal, List.find?_cons, hb]
        simpa [findVal] using hrec
    · intro h
      unfold findVal at h
      obtain ⟨p, hp, hps⟩ := Option.map_eq_some'.mp h
      have hpm := List.mem_of_find?_eq_some hp
      exact List.mem_map.mpr ⟨p, hpm, hps⟩

theorem insertAll_append (a b : List Skill) :
    ∀ m : List (String × Skill), insertAll m (a ++ b) = insertAll (insertAll m a) b := by
  induction a with
  | nil => intro m; rfl
  | cons s rest ih =>
    intro m
    rw [List.cons_append, insertAll, insertAll, ih]

theorem insertAll_nodup :
    ∀ (l : List Skill) (m : List (String × Skill)),
      (m.map Prod.fst).Nodup → ((insertAll m l).map Prod.fst).Nodup
  | [], _, h => h
  | s :: rest, m, h => insertAll_nodup rest _ (mapSet_nodup m s.name s h)

theorem insertAll_names :
    ∀ (l : List Skill) (m : List (String × Skill)),
      (∀ p ∈ m, p.1 = p.2.name) → ∀ p ∈ insertAll m l, p.1 = p.2.name
  | [], _, h => h
  | s :: rest, m, h =>
    insertAll_names rest _ (mapSet_names s.name s rfl m h)

theorem compositeGo_ok_iff :
    ∀ (ps : List SkillProvider) (m mr : List (String × Skill)),
      compositeGo m ps = .ok mr ↔
        ∃ flat, flattenSkills ps = .ok flat ∧ mr = insertAll m flat
  | [], m, mr => by
    constructor
    · intro h
      refine ⟨[], rfl, ?_⟩
      have : m = mr := by
        simpa [compositeGo] using h
      rw [← this]
      rfl
    · rintro ⟨flat, hf, hm⟩
      have hfl : flat = ([] : List Skill) := by
        simpa [flattenSkills] using hf.symm
      subst hfl
      simp [compositeGo, hm, insertAll]
  | p :: rest, m, mr => by
    rw [compositeGo]
    cases hg : p.getSkills with
    | error e =>
      simp only [flattenSkills, hg]
      constructor
      · intro h
        exact absurd h (by simp)
      · rintro ⟨flat, hf, -⟩
        exact absurd hf (by simp)
    | ok skills =>
      simp only [flattenSkills, hg]
      rw [compositeGo_ok_iff rest (insertAll m skills) mr]
      constructor
      · rintro ⟨flat', hf', hm'⟩
        refine ⟨skills ++ flat', by rw [hf']; rfl, ?_⟩
        rw [hm', insertAll_append]
      · rintro ⟨flat, hf, hm'⟩
        cases hfr : flattenSkills rest with
        | error e =>
          rw [hfr] at hf
          exact absurd hf (by simp [Except.map])
        | ok fl =>
          rw [hfr] at hf
          have hfe : skills ++ fl = flat := by
            simpa [Except.map] using hf
          refine ⟨fl, rfl, ?_⟩
          rw [hm', ← hfe, insertAll_append]

/-! ## Helper lemmas: route matching and dispatch -/

theorem skillMdMatch_root : skillMdMatch "/" = none := rfl

theorem skillMdMatch_empty : skillMdMatch "" = none := rfl

theorem skillMdMatch_index : skillMdMatch "/index.json" = none := rfl

theorem skillFileMatch_root : skillFileMatch "/" = none := rfl

theorem skillFileMatch_empty : skillFileMatch "" = none := rfl

theorem skillFileMatch_index : skillFileMatch "/index.json" = none := rfl

theorem skillDirMatch_root : skillDirMatch "/" = none := rfl

theorem skillDirMatch_empty : skillDirMatch "" = none := rfl

theorem breakSlash_of_not_contains (l : List Char)
    (h : l.contains '/' = false) : breakSlash l = none := by
  induction l with
  | nil => rfl
  | cons c rest ih =>
    rw [List.contains_cons] at h
    rw [Bool.or_eq_false_iff] at h
    rw [breakSlash, if_neg]
    · rw [ih h.2]
      rfl
    · intro hb
      rw [beq_iff_eq] at hb
      subst hb
      simp at h

theorem skillDirMatch_shape (p : String) (n : String)
    (h : skillDirMatch p = some n) :
    ∃ rest, p.data = '/' :: rest ∧ 0 < rest.length ∧
      rest.contains '/' = false ∧ n = String.mk rest := by
  unfold skillDirMatch at h
  split at h
  next rest heq =>
    split at h
    next hc =>
      rw [Bool.and_eq_true] at hc
      obtain ⟨hc1, hc2⟩ := hc
      rw [Bool.not_eq_true'] at hc2
      injection h with h
      exact ⟨rest, heq, of_decide_eq_true hc1, hc2, h.symm⟩
    next => cases h
  next => cases h

theorem skillDirMatch_excludes (p : String) (n : String)
    (h : skillDirMatch p = some n) :
    skillMdMatch p = none ∧ skillFileMatch p = none ∧ p ≠ "/" ∧ p ≠ "" := by
  obtain ⟨rest, heq, hlen, hcont, -⟩ := skillDirMatch_shape p n h
  have hbs : breakSlash rest = none := breakSlash_of_not_contains rest hcont
  refine ⟨?_, ?_, ?_, ?_⟩
  · simp only [skillMdMatch, heq, hbs]
  · simp only [skillFileMatch, heq, hbs]
  · intro he
    subst he
    have hd : ("/" : String).data = ['/'] := rfl
    rw [hd] at heq
    injection heq with h1 h2
    rw [← h2] at hlen
    simp at hlen
  · intro he
    subst he
    have hd : ("" : String).data = [] := rfl
    rw [hd] at heq
    cases heq

theorem skillMdMatch_ne (p : String) (n : String)
    (h : skillMdMatch p = some n) :
    p ≠ "/" ∧ p ≠ "" ∧ p ≠ "/index.json" := by
  refine ⟨?_, ?_, ?_⟩ <;> intro he <;> subst he
  · rw [skillMdMatch_root] at h; cases h
  · rw [skillMdMatch_empty] at h; cases h
  · rw [skillMdMatch_index] at h; cases h

theorem skillFileMatch_ne (p : String) (n fp : String)
    (h : skillFileMatch p = some (n, fp)) :
    p ≠ "/" ∧ p ≠ "" ∧ p ≠ "/index.json" := by
  refine ⟨?_, ?_, ?_⟩ <;> intro he <;> subst he
  · rw [skillFileMatch_root] at h; cases h
  · rw [skillFileMatch_empty] at h; cases h
  · rw [skillFileMatch_index] at h; cases h

theorem runEmit_none (e : SkillsEvent) : runEmit none e = .ok [] := rfl

theorem runEmit_some_benign (throws : SkillsEvent → Bool) (e : SkillsEvent)
    (h : throws e = false) : runEmit (some throws) e = .ok [e] := by
  simp [runEmit, h]

theorem runEmit_benign (sink : EventSink) (e : SkillsEvent)
    (h : BenignSink sink) : ∃ evs, runEmit sink e = .ok evs := by
  cases sink with
  | none => exact ⟨[], rfl⟩
  | some throws => exact ⟨[e], runEmit_some_benign throws e (h throws e rfl)⟩

theorem handler_gate (provider : SkillProvider) (cfg : SkillsHandlerConfig)
    (sink : EventSink) (now : Nat) (req : Request)
    (hm : jsToUpper req.method = "GET" ∨ jsToUpper req.method = "HEAD") :
    handlerModel provider cfg sink now req =
      routeDispatch provider cfg sink now req
        (relativePathOf (stripTrailingSlash cfg.basePath) req.pathname) := by
  unfold handlerModel
  rcases hm with hm | hm <;> rw [hm] <;> rfl

theorem dispatch_root (provider : SkillProvider) (cfg : SkillsHandlerConfig)
    (sink : EventSink) (now : Nat) (req : Request) (rel : String)
    (hrel : rel = "/" ∨ rel = "") :
    routeDispatch provider cfg sink now req rel =
      .ok (createRedirect req (stripTrailingSlash cfg.basePath ++ "/index.json"),
           []) := by
  rcases hrel with h | h <;> subst h <;> rfl

theorem dispatch_index (provider : SkillProvider) (cfg : SkillsHandlerConfig)
    (sink : EventSink) (now : Nat) (req : Request) (rel : String)
    (hrel : rel = "/index.json") :
    routeDispatch provider cfg sink now req rel =
      serveIndex provider cfg sink now req.pathname := by
  subst hrel
  rfl

theorem dispatch_skillMd (provider : SkillProvider) (cfg : SkillsHandlerConfig)
    (sink : EventSink) (now : Nat) (req : Request) (rel : String) (name : String)
    (hm : skillMdMatch rel = some name) :
    routeDispatch provider cfg sink now req rel =
      (if isValidSkillName name then
        serveSkillMd provider cfg sink now name req.pathname
      else
        match runEmit sink
            { type := .NOT_FOUND, timestamp := now, path := req.pathname,
              skillName := some name } with
        | .error m => .error m
        | .ok evs =>
          .ok (jsonResponse cfg 400 (jsonError "Invalid skill name"), evs)) := by
  obtain ⟨hne1, hne2, hne3⟩ := skillMdMatch_ne rel name hm
  have hb1 : (rel == "/" || rel == "") = false := by
    rw [Bool.or_eq_false_iff]
    exact ⟨beq_eq_false_iff_ne.mpr hne1, beq_eq_false_iff_ne.mpr hne2⟩
  have hb2 : (rel == "/index.json") = false := beq_eq_false_iff_ne.mpr hne3
  simp only [routeDispatch]
  rw [hb1, if_neg Bool.false_ne_true, hb2, if_neg Bool.false_ne_true, hm]

theorem dispatch_skillFile (provider : SkillProvider) (cfg : SkillsHandlerConfig)
    (sink : EventSink) (now : Nat) (req : Request) (rel : String)
    (name fp : String)
    (hmd : skillMdMatch rel = none)
    (hf : skillFileMatch rel = some (name, fp)) :
    routeDispatch provider cfg sink now req rel =
      (if !isValidSkillName name then
        match runEmit sink
            { type := .NOT_FOUND, timestamp := now, path := req.pathname,
              skillName := some name } with
        | .error m => .error m
        | .ok evs =>
          .ok (jsonResponse cfg 400 (jsonError "Invalid skill name"), evs)
      else if !isValidFilePath fp then
        match runEmit sink
            { type := .NOT_FOUND, timestamp := now, path := req.pathname,
              skillName := some name, filePath := some fp } with
        | .error m => .error m
        | .ok evs =>
          .ok (jsonResponse cfg 400 (jsonError "Invalid file path"), evs)
      else serveSkillFile provider cfg sink now name fp req.pathname) := by
  obtain ⟨hne1, hne2, hne3⟩ := skillFileMatch_ne rel name fp hf
  have hb1 : (rel == "/" || rel == "") = false := by
    rw [Bool.or_eq_false_iff]
    exact ⟨beq_eq_false_iff_ne.mpr hne1, beq_eq_false_iff_ne.mpr hne2⟩
  have hb2 : (rel == "/index.json") = false := beq_eq_false_iff_ne.mpr hne3
  simp only [routeDispatch]
  rw [hb1, if_neg Bool.false_ne_true, hb2, if_neg Bool.false_ne_true, hmd, hf]

theorem dispatch_skillDir (provider : SkillProvider) (cfg : SkillsHandlerConfig)
    (sink : EventSink) (now : Nat) (req : Request) (rel : String) (name : String)
    (hd : skillDirMatch rel = some name)
    (hne3 : rel ≠ "/index.json") :
    routeDispatch provider cfg sink now req rel =
      (if isValidSkillName name then
        .ok (createRedirect req
          (stripTrailingSlash cfg.basePath ++ "/" ++ name ++ "/SKILL.md"), [])
      else notFoundFallthrough cfg sink now req.pathname) := by
  obtain ⟨hmd, hff, hne1, hne2⟩ := skillDirMatch_excludes rel name hd
  have hb1 : (rel == "/" || rel == "") = false := by
    rw [Bool.or_eq_false_iff]
    exact ⟨beq_eq_false_iff_ne.mpr hne1, beq_eq_false_iff_ne.mpr hne2⟩
  have hb2 : (rel == "/index.json") = false := beq_eq_false_iff_ne.mpr hne3
  simp only [routeDispatch]
  rw [hb1, if_neg Bool.false_ne_true, hb2, if_neg Bool.false_ne_true, hmd, hff, hd]

theorem dispatch_noMatch (provider : SkillProvider) (cfg : SkillsHandlerConfig)
    (sink : EventSink) (now : Nat) (req : Request) (rel : String)
    (hb1 : rel ≠ "/") (hb1' : rel ≠ "") (hne3 : rel ≠ "/index.json")
    (hmd : skillMdMatch rel = none)
    (hff : skillFileMatch rel = none)
    (hdd : skillDirMatch rel = none) :
    routeDispatch provider cfg sink now req rel =
      notFoundFallthrough cfg sink now req.pathname := by
  have hc1 : (rel == "/" || rel == "") = false := by
    rw [Bool.or_eq_false_iff]
    exact ⟨beq_eq_false_iff_ne.mpr hb1, beq_eq_false_iff_ne.mpr hb1'⟩
  have hc2 : (rel == "/index.json") = false := beq_eq_false_iff_ne.mpr hne3
  simp only [routeDispatch]
  rw [hc1, if_neg Bool.false_ne_true, hc2, if_neg Bool.false_ne_true, hmd, hff, hdd]

/-! ## Helper lemmas: the route handlers under a benign sink -/

theorem serveIndex_provider_error (provider : SkillProvider)
    (cfg : SkillsHandlerConfig) (throws : SkillsEvent → Bool) (now : Nat)
    (path msg : String)
    (hprov : provider.getSkills = .error msg)
    (hsink : ∀ e, throws e = false) :
    serveIndex provider cfg (some throws) now path =
      .ok (jsonResponse cfg 500 (jsonError "Internal server error"),
           [{ type := .ERROR, timestamp := now, path := path,
              errorMsg := some msg }]) := by
  simp [serveIndex, hprov, serveCatch, runEmit, hsink]

theorem serveIndex_ok_benign (provider : SkillProvider)
    (cfg : SkillsHandlerConfig) (throws : SkillsEvent → Bool) (now : Nat)
    (path : String) (skills : List Skill)
    (hprov : provider.getSkills = .ok skills)
    (hsink : ∀ e, throws e = false) :
    serveIndex provider cfg (some throws) now path =
      .ok ({ status := 200, headers := createHeaders cfg "application/json",
             body := some (indexJson skills) },
           [{ type := .INDEX_REQUESTED, timestamp := now, path := path,
              skillCount := some skills.length }]) := by
  simp [serveIndex, hprov, runEmit, hsink]

theorem serveSkillMd_provider_error (provider : SkillProvider)
    (cfg : SkillsHandlerConfig) (throws : SkillsEvent → Bool) (now : Nat)
    (name path msg : String)
    (hprov : provider.getSkills = .error msg)
    (hsink : ∀ e, throws e = false) :
    serveSkillMd provider cfg (some throws) now name path =
      .ok (jsonResponse cfg 500 (jsonError "Internal server error"),
           [{ type := .ERROR, timestamp := now, path := path,
              errorMsg := some msg, ctxSkillName := some name }]) := by
  simp [serveSkillMd, hprov, serveCatch, runEmit, hsink]

theorem serveSkillMd_found (provider : SkillProvider)
    (cfg : SkillsHandlerConfig) (throws : SkillsEvent → Bool) (now : Nat)
    (name path : String) (skills : List Skill) (sk : Skill)
    (hprov : provider.getSkills = .ok skills)
    (hfind : skills.find? (fun s => s.name == name) = some sk)
    (hsink : ∀ e, throws e = false) :
    serveSkillMd provider cfg (some throws) now name path =
      .ok ({ status := 200,
             headers := createHeaders cfg "text/markdown; charset=utf-8",
             body := some (reconstructSkillMd sk) },
           [{ type := .SKILL_REQUESTED, timestamp := now, path := path,
              skillName := some name }]) := by
  simp [serveSkillMd, hprov, hfind, runEmit, hsink]

theorem serveSkillMd_notfound (provider : SkillProvider)
    (cfg : SkillsHandlerConfig) (throws : SkillsEvent → Bool) (now : Nat)
    (name path : String) (skills : List Skill)
    (hprov : provider.getSkills = .ok skills)
    (hfind : skills.find? (fun s => s.name == name) = none)
    (hsink : ∀ e, throws e = false) :
    serveSkillMd provider cfg (some throws) now name path =
      .ok (jsonResponse cfg 404 (jsonError "Skill not found"),
           [{ type := .NOT_FOUND, timestamp := now, path := path,
              skillName := some name }]) := by
  simp [serveSkillMd, hprov, hfind, runEmit, hsink]

theorem serveSkillFile_provider_error (provider : SkillProvider)
    (cfg : SkillsHandlerConfig) (throws : SkillsEvent → Bool) (now : Nat)
    (name fp path msg : String)
    (hprov : provider.getSkillFile name fp = .error msg)
    (hsink : ∀ e, throws e = false) :
    serveSkillFile provider cfg (some throws) now name fp path =
      .ok (jsonResponse cfg 500 (jsonError "Internal server error"),
           [{ type := .ERROR, timestamp := now, path := path,
              errorMsg := some msg, ctxSkillName := some name,
              ctxFilePath := some fp }]) := by
  simp [serveSkillFile, hprov, serveCatch, runEmit, hsink]

theorem serveSkillFile_some_benign (provider : SkillProvider)
    (cfg : SkillsHandlerConfig) (throws : SkillsEvent → Bool) (now : Nat)
    (name fp path content : String)
    (hprov : provider.getSkillFile name fp = .ok (some content))
    (hsink : ∀ e, throws e = false) :
    serveSkillFile provider cfg (some throws) now name fp path =
      .ok ({ status := 200,
             headers := createHeaders cfg (getContentType fp).headerString,
             body := some content },
           [{ type := .FILE_REQUESTED, timestamp := now, path := path,
              skillName := some name, filePath := some fp }]) := by
  simp [serveSkillFile, hprov, runEmit, hsink]

theorem serveSkillFile_none_benign (provider : SkillProvider)
    (cfg : SkillsHandlerConfig) (throws : SkillsEvent → Bool) (now : Nat)
    (name fp path : String)
    (hprov : provider.getSkillFile name fp = .ok none)
    (hsink : ∀ e, throws e = false) :
    serveSkillFile provider cfg (some throws) now name fp path =
      .ok (jsonResponse cfg 404 (jsonError "File not found"),
           [{ type := .NOT_FOUND, timestamp := now, path := path,
              skillName := some name, filePath := some fp }]) := by
  simp [serveSkillFile, hprov, runEmit, hsink]

theorem notFoundFallthrough_benign (cfg : SkillsHandlerConfig)
    (throws : SkillsEvent → Bool) (now : Nat) (path : String)
    (hsink : ∀ e, throws e = false) :
    notFoundFallthrough cfg (some throws) now path =
      .ok (jsonResponse cfg 404 (jsonError "Not found"),
           [{ type := .NOT_FOUND, timestamp := now, path := path }]) := by
  simp [notFoundFallthrough, runEmit, hsink]

/-! ## Helper lemmas: totality under a benign sink -/

theorem serveCatch_benign (cfg : SkillsHandlerConfig) (sink : EventSink)
    (now : Nat) (path msg : String) (cn cf : Option String)
    (hb : BenignSink sink) :
    ∃ resp evs, serveCatch cfg sink now path msg cn cf = .ok (resp, evs) := by
  obtain ⟨evs, he⟩ := runEmit_benign sink
    { type := .ERROR, timestamp := now, path := path, errorMsg := some msg,
      ctxSkillName := cn, ctxFilePath := cf } hb
  refine ⟨jsonResponse cfg 500 (jsonError "Internal server error"), evs, ?_⟩
  simp only [serveCatch, he]

theorem serveIndex_benign (provider : SkillProvider) (cfg : SkillsHandlerConfig)
    (sink : EventSink) (now : Nat) (path : String) (hb : BenignSink sink) :
    ∃ resp evs, serveIndex provider cfg sink now path = .ok (resp, evs) := by
  cases hg : provider.getSkills with
  | error msg =>
    obtain ⟨r, e, hh⟩ := serveCatch_benign cfg sink now path msg none none hb
    exact ⟨r, e, by simp only [serveIndex, hg]; exact hh⟩
  | ok skills =>
    obtain ⟨evs, he⟩ := runEmit_benign sink
      { type := .INDEX_REQUESTED, timestamp := now, path := path,
        skillCount := some skills.length } hb
    exact ⟨_, evs, by simp only [serveIndex, hg, he]; rfl⟩

theorem serveSkillMd_benign (provider : SkillProvider)
    (cfg : SkillsHandlerConfig) (sink : EventSink) (now : Nat)
    (name path : String) (hb : BenignSink sink) :
    ∃ resp evs, serveSkillMd provider cfg sink now name path = .ok (resp, evs) := by
  cases hg : provider.getSkills with
  | error msg =>
    obtain ⟨r, e, hh⟩ := serveCatch_benign cfg sink now path msg (some name) none hb
    exact ⟨r, e, by simp only [serveSkillMd, hg]; exact hh⟩
  | ok skills =>
    cases hf : skills.find? (fun s => s.name == name) with
    | none =>
      obtain ⟨evs, he⟩ := runEmit_benign sink
        { type := .NOT_FOUND, timestamp := now, path := path,
          skillName := some name } hb
      exact ⟨_, evs, by simp only [serveSkillMd, hg, hf, he]; rfl⟩
    | some sk =>
      obtain ⟨evs, he⟩ := runEmit_benign sink
        { type := .SKILL_REQUESTED, timestamp := now, path := path,
          skillName := some name } hb
      exact ⟨_, evs, by simp only [serveSkillMd, hg, hf, he]; rfl⟩

theorem serveSkillFile_benign (provider : SkillProvider)
    (cfg : SkillsHandlerConfig) (sink : EventSink) (now : Nat)
    (name fp path : String) (hb : BenignSink sink) :
    ∃ resp evs, serveSkillFile provider cfg sink now name fp path =
      .ok (resp, evs) := by
  cases hg : provider.getSkillFile name fp with
  | error msg =>
    obtain ⟨r, e, hh⟩ :=
      serveCatch_benign cfg sink now path msg (some name) (some fp) hb
    exact ⟨r, e, by simp only [serveSkillFile, hg]; exact hh⟩
  | ok content =>
    cases content with
    | none =>
      obtain ⟨evs, he⟩ := runEmit_benign sink
        { type := .NOT_FOUND, timestamp := now, path := path,
          skillName := some name, filePath := some fp } hb
      exact ⟨_, evs, by simp only [serveSkillFile, hg, he]; rfl⟩
    | some c =>
      obtain ⟨evs, he⟩ := runEmit_benign sink
        { type := .FILE_REQUESTED, timestamp := now, path := path,
          skillName := some name, filePath := some fp } hb
      exact ⟨_, evs, by simp only [serveSkillFile, hg, he]; rfl⟩

theorem notFoundFallthrough_benign_total (cfg : SkillsHandlerConfig)
    (sink : EventSink) (now : Nat) (path : String) (hb : BenignSink sink) :
    ∃ resp evs, notFoundFallthrough cfg sink now path = .ok (resp, evs) := by
  obtain ⟨evs, he⟩ := runEmit_benign sink
    { type := .NOT_FOUND, timestamp := now, path := path } hb
  exact ⟨_, evs, by simp only [notFoundFallthrough, he]; rfl⟩

theorem routeDispatch_benign (provider : SkillProvider)
    (cfg : SkillsHandlerConfig) (sink : EventSink) (now : Nat) (req : Request)
    (rel : String) (hb : BenignSink sink) :
    ∃ resp evs, routeDispatch provider cfg sink now req rel = .ok (resp, evs) := by
  by_cases h1 : rel = "/"
  · rw [dispatch_root provider cfg sink now req rel (Or.inl h1)]
    exact ⟨_, _, rfl⟩
  by_cases h2 : rel = ""
  · rw [dispatch_root provider cfg sink now req rel (Or.inr h2)]
    exact ⟨_, _, rfl⟩
  by_cases h3 : rel = "/index.json"
  · rw [dispatch_index provider cfg sink now req rel h3]
    exact serveIndex_benign provider cfg sink now req.pathname hb
  cases hm : skillMdMatch rel with
  | some name =>
    rw [dispatch_skillMd provider cfg sink now req rel name hm]
    by_cases hv : isValidSkillName name = true
    · rw [if_pos hv]
      exact serveSkillMd_benign provider cfg sink now name req.pathname hb
    · rw [if_neg hv]
      obtain ⟨evs, he⟩ := runEmit_benign sink
        { type := .NOT_FOUND, timestamp := now, path := req.pathname,
          skillName := some name } hb
      rw [he]
      exact ⟨_, _, rfl⟩
  | none =>
    cases hf : skillFileMatch rel with
    | some pair =>
      obtain ⟨name, fp⟩ := pair
      rw [dispatch_skillFile provider cfg sink now req rel name fp hm hf]
      by_cases hv : isValidSkillName name = true
      · rw [if_neg (by simp [hv])]
        by_cases hp : isValidFilePath fp = true
        · rw [if_neg (by simp [hp])]
          exact serveSkillFile_benign provider cfg sink now name fp
            req.pathname hb
        · rw [if_pos (by simp [Bool.eq_false_iff.mpr hp])]
          obtain ⟨evs, he⟩ := runEmit_benign sink
            { type := .NOT_FOUND, timestamp := now, path := req.pathname,
              skillName := some name, filePath := some fp } hb
          rw [he]
          exact ⟨_, _, rfl⟩
      · rw [if_pos (by simp [Bool.eq_false_iff.mpr hv])]
        obtain ⟨evs, he⟩ := runEmit_benign sink
          { type := .NOT_FOUND, timestamp := now, path := req.pathname,
            skillName := some name } hb
        rw [he]
        exact ⟨_, _, rfl⟩
    | none =>
      cases hd : skillDirMatch rel with
      | some name =>
        rw [dispatch_skillDir provider cfg sink now req rel name hd h3]
        by_cases hv : isValidSkillName name = true
        · rw [if_pos hv]
          exact ⟨_, _, rfl⟩
        · rw [if_neg hv]
          exact notFoundFallthrough_benign_total cfg sink now req.pathname hb
      | none =>
        rw [dispatch_noMatch provider cfg sink now req rel h1 h2 h3 hm hf hd]
        exact notFoundFallthrough_benign_total cfg sink now req.pathname hb

theorem handler_benign_total (provider : SkillProvider)
    (cfg : SkillsHandlerConfig) (sink : EventSink) (now : Nat) (req : Request)
    (hb : BenignSink sink) :
    ∃ resp evs, handlerModel provider cfg sink now req = .ok (resp, evs) := by
  simp only [handlerModel]
  cases hc1 : (jsToUpper req.method == "OPTIONS") with
  | true => exact ⟨_, _, by rw [if_pos rfl]⟩
  | false =>
    rw [if_neg Bool.false_ne_true]
    cases hc2 : (jsToUpper req.method != "GET" && jsToUpper req.method != "HEAD") with
    | true => exact ⟨_, _, by rw [if_pos rfl]⟩
    | false =>
      rw [if_neg Bool.false_ne_true]
      exact routeDispatch_benign provider cfg sink now req
        (relativePathOf (stripTrailingSlash cfg.basePath) req.pathname) hb

/-! ## Helper lemmas: the shape of returned responses -/

theorem ok_pair_eq {α β : Type} {x resp : α} {y evs : β}
    (h : (Except.ok (x, y) : Except String (α × β)) = .ok (resp, evs)) :
    x = resp ∧ y = evs := by
  injection h with h
  exact ⟨congrArg Prod.fst h, congrArg Prod.snd h⟩

theorem serveCatch_ok_shape {cfg : SkillsHandlerConfig} {sink : EventSink}
    {now : Nat} {path msg : String} {cn cf : Option String}
    {resp : Response} {evs : List SkillsEvent}
    (h : serveCatch cfg sink now path msg cn cf = .ok (resp, evs)) :
    resp = jsonResponse cfg 500 (jsonError "Internal server error") := by
  unfold serveCatch at h
  split at h
  · cases h
  · exact (ok_pair_eq h).1.symm

theorem serveIndex_ok_shape {provider : SkillProvider}
    {cfg : SkillsHandlerConfig} {sink : EventSink} {now : Nat} {path : String}
    {resp : Response} {evs : List SkillsEvent}
    (h : serveIndex provider cfg sink now path = .ok (resp, evs)) :
    ∃ ct, resp.headers = createHeaders cfg ct := by
  unfold serveIndex at h
  split at h
  · exact ⟨"application/json", by rw [serveCatch_ok_shape h]; rfl⟩
  · split at h
    · exact ⟨"application/json", by rw [serveCatch_ok_shape h]; rfl⟩
    · exact ⟨"application/json", by rw [← (ok_pair_eq h).1]⟩

theorem serveSkillMd_ok_shape {provider : SkillProvider}
    {cfg : SkillsHandlerConfig} {sink : EventSink} {now : Nat}
    {name path : String} {resp : Response} {evs : List SkillsEvent}
    (h : serveSkillMd provider cfg sink now name path = .ok (resp, evs)) :
    ∃ ct, resp.headers = createHeaders cfg ct := by
  unfold serveSkillMd at h
  split at h
  · exact ⟨"application/json", by rw [serveCatch_ok_shape h]; rfl⟩
  · split at h
    · split at h
      · exact ⟨"application/json", by rw [serveCatch_ok_shape h]; rfl⟩
      · exact ⟨"application/json", by rw [← (ok_pair_eq h).1]; rfl⟩
    · split at h
      · exact ⟨"application/json", by rw [serveCatch_ok_shape h]; rfl⟩
      · exact ⟨"text/markdown; charset=utf-8", by rw [← (ok_pair_eq h).1]⟩

theorem serveSkillFile_ok_shape {provider : SkillProvider}
    {cfg : SkillsHandlerConfig} {sink : EventSink} {now : Nat}
    {name fp path : String} {resp : Response} {evs : List SkillsEvent}
    (h : serveSkillFile provider cfg sink now name fp path = .ok (resp, evs)) :
    ∃ ct, resp.headers = createHeaders cfg ct := by
  unfold serveSkillFile at h
  split at h
  · exact ⟨"application/json", by rw [serveCatch_ok_shape h]; rfl⟩
  · split at h
    · exact ⟨"application/json", by rw [serveCatch_ok_shape h]; rfl⟩
    · exact ⟨"application/json", by rw [← (ok_pair_eq h).1]; rfl⟩
  · split at h
    · exact ⟨"application/json", by rw [serveCatch_ok_shape h]; rfl⟩
    · exact ⟨(getContentType fp).headerString, by rw [← (ok_pair_eq h).1]⟩

theorem notFoundFallthrough_ok_shape {cfg : SkillsHandlerConfig}
    {sink : EventSink} {now : Nat} {path : String}
    {resp : Response} {evs : List SkillsEvent}
    (h : notFoundFallthrough cfg sink now path = .ok (resp, evs)) :
    resp = jsonResponse cfg 404 (jsonError "Not found") := by
  unfold notFoundFallthrough at h
  split at h
  · cases h
  · exact (ok_pair_eq h).1.symm

theorem routeDispatch_ok_shape {provider : SkillProvider}
    {cfg : SkillsHandlerConfig} {sink : EventSink} {now : Nat} {req : Request}
    {rel : String} {resp : Response} {evs : List SkillsEvent}
    (h : routeDispatch provider cfg sink now req rel = .ok (resp, evs)) :
    (resp.status = 302 ∧ ∃ loc, resp.headers = [("Location", loc)]) ∨
    (∃ ct, resp.headers = createHeaders cfg ct) := by
  simp only [routeDispatch] at h
  split at h
  · left
    rw [← (ok_pair_eq h).1]
    exact ⟨rfl, _, rfl⟩
  · split at h
    · exact Or.inr (serveIndex_ok_shape h)
    · split at h
      · split at h
        · exact Or.inr (serveSkillMd_ok_shape h)
        · split at h
          · cases h
          · exact Or.inr ⟨"application/json", by rw [← (ok_pair_eq h).1]; rfl⟩
      · split at h
        · split at h
          · split at h
            · cases h
            · exact Or.inr ⟨"application/json", by rw [← (ok_pair_eq h).1]; rfl⟩
          · split at h
            · split at h
              · cases h
              · exact Or.inr ⟨"application/json", by rw [← (ok_pair_eq h).1]; rfl⟩
            · exact Or.inr (serveSkillFile_ok_shape h)
        · split at h
          · split at h
            · left
              rw [← (ok_pair_eq h).1]
              exact ⟨rfl, _, rfl⟩
            · exact Or.inr ⟨"application/json", by
                rw [notFoundFallthrough_ok_shape h]; rfl⟩
          · exact Or.inr ⟨"application/json", by
              rw [notFoundFallthrough_ok_shape h]; rfl⟩

theorem handler_ok_shape {provider : SkillProvider}
    {cfg : SkillsHandlerConfig} {sink : EventSink} {now : Nat} {req : Request}
    {resp : Response} {evs : List SkillsEvent}
    (h : handlerModel provider cfg sink now req = .ok (resp, evs))
    (hopt : jsToUpper req.method ≠ "OPTIONS") :
    (resp.status = 302 ∧ ∃ loc, resp.headers = [("Location", loc)]) ∨
    (∃ ct, resp.headers = createHeaders cfg ct) := by
  simp only [handlerModel] at h
  split at h
  · next hc => exact absurd (beq_iff_eq.mp hc) hopt
  · split at h
    · exact Or.inr ⟨"application/json", by rw [← (ok_pair_eq h).1]; rfl⟩
    · exact routeDispatch_ok_shape h

theorem createHeaders_lookup (cfg : SkillsHandlerConfig) (ct : String) :
    (createHeaders cfg ct).lookup "Content-Type" = some ct ∧
    (createHeaders cfg ct).lookup "Cache-Control" = some cfg.cacheControl ∧
    (∀ o, cfg.cors = CorsConfig.single o →
      (createHeaders cfg ct).lookup "Access-Control-Allow-Origin" = some o ∧
      (createHeaders cfg ct).lookup "Access-Control-Allow-Methods" =
        some "GET, HEAD, OPTIONS" ∧
      (createHeaders cfg ct).lookup "Access-Control-Allow-Headers" =
        some "Content-Type") ∧
    (∀ os, cfg.cors = CorsConfig.origins os →
      (createHeaders cfg ct).lookup "Access-Control-Allow-Origin" =
        some (joinSep ", " os) ∧
      (createHeaders cfg ct).lookup "Access-Control-Allow-Methods" =
        some "GET, HEAD, OPTIONS" ∧
      (createHeaders cfg ct).lookup "Access-Control-Allow-Headers" =
        some "Content-Type") ∧
    (cfg.cors = CorsConfig.disabled →
      (createHeaders cfg ct).lookup "Access-Control-Allow-Origin" = none ∧
      (createHeaders cfg ct).lookup "Access-Control-Allow-Methods" = none ∧
      (createHeaders cfg ct).lookup "Access-Control-Allow-Headers" = none) := by
  cases hcors : cfg.cors with
  | single o =>
    refine ⟨?_, ?_, ?_, ?_, ?_⟩ <;>
      simp [createHeaders, hcors, List.lookup]
  | origins os =>
    refine ⟨?_, ?_, ?_, ?_, ?_⟩ <;>
      simp [createHeaders, hcors, List.lookup]
  | disabled =>
    refine ⟨?_, ?_, ?_, ?_, ?_⟩ <;>
      simp [createHeaders, hcors, List.lookup]

/-! ## Helper lemmas: path normalization -/

theorem isPrefixOf_append_self : ∀ l t : List Char, l.isPrefixOf (l ++ t) = true
  | [], _ => by simp [List.isPrefixOf]
  | c :: l, t => by
    simp only [List.cons_append, List.isPrefixOf, beq_self_eq_true,
      Bool.true_and]
    exact isPrefixOf_append_self l t

theorem singleton_isSuffixOf_iff (a : Char) (l : List Char) :
    [a].isSuffixOf l = true ↔ l.getLast? = some a := by
  unfold List.isSuffixOf
  rw [List.reverse_singleton, singleton_isPrefixOf_iff, List.head?_reverse]

theorem relativePathOf_append (base suffix : String)
    (h1 : strStartsWith suffix "/" = false)
    (h2 : suffix ≠ "")
    (h3 : strEndsWith suffix "/" = false) :
    relativePathOf (stripTrailingSlash base)
      (stripTrailingSlash base ++ suffix) = "/" ++ suffix := by
  have hne : suffix.data ≠ [] := by
    intro hh
    exact h2 (String.ext (hh.trans rfl))
  obtain ⟨x, hx⟩ := Option.isSome_iff_exists.mp (List.getLast?_isSome.mpr hne)
  have hxne : x ≠ '/' := by
    intro he
    subst he
    have hsw : strEndsWith suffix "/" = true :=
      (singleton_isSuffixOf_iff '/' suffix.data).mpr hx
    rw [hsw] at h3
    cases h3
  have hend : strEndsWith ("/" ++ suffix) "/" = false := by
    apply Bool.eq_false_iff.mpr
    intro hb
    have hb' : (('/' :: suffix.data).getLast? = some '/') := by
      have hcast : (("/" ++ suffix).data).getLast? = some '/' :=
        (singleton_isSuffixOf_iff '/' ("/" ++ suffix).data).mp hb
      rw [String.data_append] at hcast
      exact hcast
    rw [getLast?_cons_or, hx] at hb'
    have hor : (some x).or (some '/') = some x := rfl
    rw [hor] at hb'
    exact hxne (Option.some.inj hb')
  have hpre : strStartsWith (stripTrailingSlash base ++ suffix)
      (stripTrailingSlash base) = true := by
    unfold strStartsWith
    rw [String.data_append]
    exact isPrefixOf_append_self (stripTrailingSlash base).data suffix.data
  have hdrop : strDrop (stripTrailingSlash base ++ suffix)
      (stripTrailingSlash base).data.length = suffix := by
    unfold strDrop
    rw [String.data_append, List.drop_left]
  simp only [relativePathOf]
  rw [hpre, if_pos rfl, hdrop, h1, if_neg Bool.false_ne_true, hend,
    Bool.and_false, if_neg Bool.false_ne_true]

/-! ## Claim theorems -/

/-- C2 counterexample: the 302 redirect answered to a non-OPTIONS `GET` of
the root path carries only a `Location` header — no `Cache-Control` (and no
`Content-Type`), so the claim that every non-OPTIONS response carries those
headers is false. -/
theorem redirect_missing_cache_control :
    handlerModel { getSkills := .ok [], getSkillFile := fun _ _ => .ok none }
      {} none 0
      { method := "GET", origin := "http://localhost",
        pathname := "/.well-known/skills/" } =
      .ok ({ status := 302,
             headers :=
               [("Location", "http://localhost/.well-known/skills/index.json")],
             body := none }, []) ∧
    ([(("Location" : String),
       ("http://localhost/.well-known/skills/index.json" : String))].lookup
        "Cache-Control" = none) ∧
    ([(("Location" : String),
       ("http://localhost/.well-known/skills/index.json" : String))].lookup
        "Content-Type" = none) := by
  refine ⟨rfl, rfl, rfl⟩

/-- C2 (amended): every response to a non-OPTIONS request, except the 302
redirects of the Root and SkillRedirect routes, carries a `Content-Type`
header and a `Cache-Control` header equal to the configured value; when CORS
is enabled the three CORS headers are present with their prescribed values,
and when it is disabled all three are absent. The 302 redirects carry only a
`Location` header. -/
theorem response_headers_policy {provider : SkillProvider}
    {cfg : SkillsHandlerConfig} {sink : EventSink} {now : Nat} {req : Request}
    {resp : Response} {evs : List SkillsEvent}
    (h : handlerModel provider cfg sink now req = .ok (resp, evs))
    (hopt : jsToUpper req.method ≠ "OPTIONS") :
    (resp.status = 302 ∧ ∃ loc, resp.headers = [("Location", loc)]) ∨
    ((∃ ct, resp.headers.lookup "Content-Type" = some ct) ∧
     resp.headers.lookup "Cache-Control" = some cfg.cacheControl ∧
     (∀ o, cfg.cors = CorsConfig.single o →
       resp.headers.lookup "Access-Control-Allow-Origin" = some o ∧
       resp.headers.lookup "Access-Control-Allow-Methods" =
         some "GET, HEAD, OPTIONS" ∧
       resp.headers.lookup "Access-Control-Allow-Headers" =
         some "Content-Type") ∧
     (∀ os, cfg.cors = CorsConfig.origins os →
       resp.headers.lookup "Access-Control-Allow-Origin" =
         some (joinSep ", " os) ∧
       resp.headers.lookup "Access-Control-Allow-Methods" =
         some "GET, HEAD, OPTIONS" ∧
       resp.headers.lookup "Access-Control-Allow-Headers" =
         some "Content-Type") ∧
     (cfg.cors = CorsConfig.disabled →
       resp.headers.lookup "Access-Control-Allow-Origin" = none ∧
       resp.headers.lookup "Access-Control-Allow-Methods" = none ∧
       resp.headers.lookup "Access-Control-Allow-Headers" = none)) := by
  rcases handler_ok_shape h hopt with h302 | ⟨ct, hct⟩
  · exact Or.inl h302
  · right
    rw [hct]
    obtain ⟨h1, h2, h3, h4, h5⟩ := createHeaders_lookup cfg ct
    exact ⟨⟨ct, h1⟩, h2, h3, h4, h5⟩

/-- Witness for C2 (amended): a `POST` request (405 response) under the
default configuration carries the default `Cache-Control` value. -/
theorem response_headers_policy_witness :
    (jsonResponse ({} : SkillsHandlerConfig) 405
        (jsonError "Method not allowed")).headers.lookup "Cache-Control" =
      some "public, max-age=3600" := by
  have h0 : handlerModel
      { getSkills := .ok [], getSkillFile := fun _ _ => .ok none }
      {} none 0
      { method := "POST", origin := "http://localhost",
        pathname := "/.well-known/skills/index.json" } =
      .ok (jsonResponse {} 405 (jsonError "Method not allowed"), []) := rfl
  have h := response_headers_policy h0 (by decide)
  rcases h with ⟨h302, -⟩ | ⟨-, hcc, -⟩
  · exact absurd h302 (by decide)
  · exact hcc

/-- C8: a GET request routed as `SkillDocument name` answers, when the
provider's list holds a skill found under exactly that name, 200 with
`text/markdown; charset=utf-8` and the exact body
`---\nname: {name}\ndescription: {description}\n---\n\n{body}` plus a
`SKILL_REQUESTED` event; when no skill has that name, 404
`{error: "Skill not found"}` plus a `NOT_FOUND` event carrying the name. -/
theorem skill_document_serving (provider : SkillProvider)
    (cfg : SkillsHandlerConfig) (throws : SkillsEvent → Bool) (now : Nat)
    (req : Request) (name : String) (skills : List Skill)
    (hsink : ∀ e, throws e = false)
    (hm : jsToUpper req.method = "GET")
    (hmatch : skillMdMatch
      (relativePathOf (stripTrailingSlash cfg.basePath) req.pathname) =
        some name)
    (hvalid : isValidSkillName name = true)
    (hprov : provider.getSkills = .ok skills) :
    (∀ sk, skills.find? (fun s => s.name == name) = some sk →
      handlerModel provider cfg (some throws) now req =
        .ok ({ status := 200,
               headers := createHeaders cfg "text/markdown; charset=utf-8",
               body := some ("---\nname: " ++ name ++ "\ndescription: " ++
                 sk.description ++ "\n---\n\n" ++ sk.body) },
             [{ type := .SKILL_REQUESTED, timestamp := now,
                path := req.pathname, skillName := some name }])) ∧
    (skills.find? (fun s => s.name == name) = none →
      handlerModel provider cfg (some throws) now req =
        .ok (jsonResponse cfg 404 (jsonError "Skill not found"),
             [{ type := .NOT_FOUND, timestamp := now, path := req.pathname,
                skillName := some name }])) := by
  have hgate := handler_gate provider cfg (some throws) now req (Or.inl hm)
  have hdisp := dispatch_skillMd provider cfg (some throws) now req _ name hmatch
  constructor
  · intro sk hfind
    have hname : sk.name = name := by
      have hpa := List.find?_some hfind
      exact beq_iff_eq.mp hpa
    have hrecon : reconstructSkillMd sk =
        "---\nname: " ++ name ++ "\ndescription: " ++ sk.description ++
          "\n---\n\n" ++ sk.body := by
      have hlit : ("\n---" : String) ++ "\n\n" = "\n---\n\n" := rfl
      have hkey : ∀ X : String, (X ++ "\n---") ++ "\n\n" = X ++ "\n---\n\n" :=
        fun X => by rw [String.append_assoc]; exact congrArg (fun y => X ++ y) hlit
      simp only [reconstructSkillMd, hname]
      rw [hkey ("---\nname: " ++ name ++ "\ndescription: " ++ sk.description)]
    rw [hgate, hdisp, if_pos hvalid,
      serveSkillMd_found provider cfg throws now name req.pathname skills sk
        hprov hfind hsink, hrecon]
  · intro hfind
    rw [hgate, hdisp, if_pos hvalid,
      serveSkillMd_notfound provider cfg throws now name req.pathname skills
        hprov hfind hsink]

/-- Witness for C8 at a concrete run: the handler serves the reconstructed
document for `git-workflow` and 404s for an unknown valid name, applying the
theorem's two branches. -/
theorem skill_document_serving_witness :
    handlerModel
      { getSkills := .ok
          [{ name := "git-workflow", description := "Follow conventions.",
             body := "# Git Workflow", files := ["SKILL.md"] }],
        getSkillFile := fun _ _ => .ok none }
      {} (some (fun _ => false)) 7
      { method := "GET", origin := "http://localhost",
        pathname := "/.well-known/skills/git-workflow/SKILL.md" } =
      .ok ({ status := 200,
             headers := createHeaders {} "text/markdown; charset=utf-8",
             body := some ("---\nname: " ++ "git-workflow" ++
               "\ndescription: " ++ "Follow conventions." ++ "\n---\n\n" ++
               "# Git Workflow") },
           [{ type := .SKILL_REQUESTED, timestamp := 7,
              path := "/.well-known/skills/git-workflow/SKILL.md",
              skillName := some "git-workflow" }]) :=
  (skill_document_serving
    { getSkills := .ok
        [{ name := "git-workflow", description := "Follow conventions.",
           body := "# Git Workflow", files := ["SKILL.md"] }],
      getSkillFile := fun _ _ => .ok none }
    {} (fun _ => false) 7
    { method := "GET", origin := "http://localhost",
      pathname := "/.well-known/skills/git-workflow/SKILL.md" }
    "git-workflow"
    [{ name := "git-workflow", description := "Follow conventions.",
       body := "# Git Workflow", files := ["SKILL.md"] }]
    (fun _ => rfl) rfl (by decide) (by decide) rfl).1
    { name := "git-workflow", description := "Follow conventions.",
      body := "# Git Workflow", files := ["SKILL.md"] } rfl

/-- C6: `isValidSkillName` returns `true` exactly for strings of 1–64
characters drawn from `a-z`, `0-9` and hyphen that neither start nor end
with a hyphen and contain no two consecutive hyphens; every string with an
uppercase letter, an underscore, a leading or trailing hyphen, consecutive
hyphens, or length 0 or above 64 is rejected. -/
theorem skill_name_grammar_characterization (s : String) :
    (isValidSkillName s = true ↔ SkillNameGrammar s) ∧
    ((∃ c ∈ s.data, 'A' ≤ c ∧ c ≤ 'Z') ∨ '_' ∈ s.data ∨
      s.data.head? = some '-' ∨ s.data.getLast? = some '-' ∨
      ['-', '-'] <:+: s.data ∨ s.data.length = 0 ∨ 64 < s.data.length →
      isValidSkillName s = false) := by
  refine ⟨isValidSkillName_iff s, ?_⟩
  intro hbad
  rw [Bool.eq_false_iff]
  intro hval
  obtain ⟨hlen1, hlen2, hall, hh, hl, hinf⟩ := (isValidSkillName_iff s).mp hval
  rcases hbad with ⟨c, hc, hA, hZ⟩ | h | h | h | h | h | h
  · rcases hall c hc with ⟨h1, h2⟩ | ⟨h1, h2⟩ | h1
    · exact absurd (le_trans h1 hZ) (by decide)
    · exact absurd (le_trans hA h2) (by decide)
    · subst h1; exact absurd hA (by decide)
  · rcases hall '_' h with ⟨h1, h2⟩ | ⟨h1, h2⟩ | h1
    · exact absurd h1 (by decide)
    · exact absurd h2 (by decide)
    · exact absurd h1 (by decide)
  · exact hh h
  · exact hl h
  · exact hinf h
  · omega
  · omega

/-- Witness for C6 at concrete inputs: `git-workflow` is accepted through
the grammar direction, `Git` is rejected through the uppercase case. -/
theorem skill_name_grammar_characterization_witness :
    isValidSkillName "git-workflow" = true ∧ isValidSkillName "Git" = false := by
  constructor
  · refine (skill_name_grammar_characterization "git-workflow").1.mpr ?_
    unfold SkillNameGrammar
    decide
  · exact (skill_name_grammar_characterization "Git").2
      (Or.inl ⟨'G', by decide, by decide, by decide⟩)

/-- C7: `isValidFilePath` returns `false` for every string that is empty,
starts with `/`, contains `..`, contains a backslash, or contains `?`, `#`,
`[`, `]` or a character in `0x00`–`0x1f` or `0x7f`–`0xff`; and it accepts
`SKILL.md`, `scripts/extract.py` and `references/deep/nested/file.md`. -/
theorem file_path_validator_rejections :
    (∀ p : String, FilePathDefect p → isValidFilePath p = false) ∧
    isValidFilePath "SKILL.md" = true ∧
    isValidFilePath "scripts/extract.py" = true ∧
    isValidFilePath "references/deep/nested/file.md" = true := by
  refine ⟨?_, by decide, by decide, by decide⟩
  intro p hdef
  rw [Bool.eq_false_iff]
  intro hval
  exact (isValidFilePath_iff p).mp hval hdef

/-- Witness for C7 at a concrete input: `../secret.md` has a defect (the
substring `..`) and is rejected. -/
theorem file_path_validator_rejections_witness :
    FilePathDefect "../secret.md" ∧ isValidFilePath "../secret.md" = false := by
  have hdef : FilePathDefect "../secret.md" := by
    unfold FilePathDefect
    decide
  exact ⟨hdef, file_path_validator_rejections.1 "../secret.md" hdef⟩

/-- C5 counterexample: the path `json` contains no `.` at all, yet
`getContentType` returns `application/json` rather than the
`text/plain; charset=utf-8` fallback the claim assigns to every
extension-less path (because `split(".").pop()` yields the whole string);
moreover `x.constructor` has an unknown extension but leaks the inherited
`Object.prototype.constructor` member instead of the fallback, so the
function does not even always return a MIME string. -/
theorem content_type_dotless_counterexample :
    ('.' ∉ "json".data) ∧
    getContentType "json" = ContentTypeValue.str "application/json" ∧
    getContentType "json" ≠ ContentTypeValue.str "text/plain; charset=utf-8" ∧
    getContentType "x.constructor" =
      ContentTypeValue.protoMember "constructor" ∧
    (∀ s, getContentType "x.constructor" ≠ ContentTypeValue.str s) := by
  refine ⟨by decide, by decide, by decide, by decide, ?_⟩
  intro s hs
  rw [show getContentType "x.constructor" =
    ContentTypeValue.protoMember "constructor" from by decide] at hs
  cases hs

/-- C5 (amended): `getContentType` lowercases the maximal dot-free suffix of
the path — the part after the last `.`, or the whole path when it contains
no `.` — and indexes the object literal with it: one of the fourteen table
keys (md/markdown, json, yaml/yml, txt, py, js, ts, sh, bash, html, css,
xml) yields its MIME string; a key naming an `Object.prototype` member
(such as `constructor` or `__proto__`) leaks that inherited non-string
member; every other key yields `text/plain; charset=utf-8`. The function
itself never throws. -/
theorem content_type_lookup_key (p : String) :
    ('.' ∉ p.data → getContentType p = contentTypeSpec (jsToLower p)) ∧
    (∀ pre key : List Char, p.data = pre ++ '.' :: key → '.' ∉ key →
      getContentType p = contentTypeSpec (jsToLower (String.mk key))) := by
  constructor
  · intro h
    unfold getContentType
    rw [splitDot_no_dot p.data h]
    exact value_lookup_eq _
  · intro pre key hsplit hkey
    unfold getContentType
    obtain ⟨parts, hne, hsp⟩ := splitDot_append_dot pre key hkey
    rw [hsplit, hsp, List.getLastD_concat]
    exact value_lookup_eq _

/-- C9: whenever the composite provider's `getSkills` succeeds, the result
contains no two skills with the same name, and a skill is in the result
exactly when it is the last skill bearing its name in the in-order
concatenation of the providers' skill lists — later sources override
earlier ones by name. -/
theorem composite_provider_merges_by_name
    (ps : List SkillProvider) (out : List Skill)
    (h : (createCompositeProvider ps).getSkills = .ok out) :
    (out.map Skill.name).Nodup ∧
    (∀ sk : Skill, sk ∈ out ↔
      ∃ flat, flattenSkills ps = .ok flat ∧ lastNamed sk.name flat = some sk) := by
  have h' : ∃ mr, compositeGo [] ps = .ok mr ∧ out = mr.map (fun p => p.2) := by
    unfold createCompositeProvider at h
    cases hog : compositeGo [] ps with
    | error e =>
      rw [hog] at h
      exact absurd h (by simp [Except.map])
    | ok mr =>
      rw [hog] at h
      refine ⟨mr, rfl, ?_⟩
      have hmap : Except.ok (ε := String) (mr.map (fun p => p.2)) = .ok out := h
      simpa using hmap.symm
  obtain ⟨mr, hmr, hout⟩ := h'
  obtain ⟨flat, hflat, hins⟩ := (compositeGo_ok_iff ps [] mr).mp hmr
  subst hins
  have hnd : ((insertAll [] flat).map Prod.fst).Nodup :=
    insertAll_nodup flat [] (by simp)
  have hnm : ∀ p ∈ insertAll [] flat, p.1 = p.2.name :=
    insertAll_names flat [] (by simp)
  constructor
  · rw [hout, List.map_map]
    have heq : (insertAll [] flat).map (Skill.name ∘ (fun p => p.2)) =
        (insertAll [] flat).map Prod.fst :=
      List.map_congr_left (fun p hp => (hnm p hp).symm)
    rw [heq]
    exact hnd
  · intro sk
    rw [hout]
    have hm : sk ∈ (insertAll [] flat).map (fun p => p.2) ↔
        findVal (insertAll [] flat) sk.name = some sk :=
      mem_snd_iff_findVal sk _ hnd hnm
    have hnone : (lastNamed sk.name flat).or (findVal [] sk.name) =
        lastNamed sk.name flat := by
      cases lastNamed sk.name flat <;> rfl
    rw [findVal_insertAll sk.name flat [], hnone] at hm
    rw [hm]
    constructor
    · intro hl
      exact ⟨flat, hflat, hl⟩
    · rintro ⟨flat', hflat', hl⟩
      rw [hflat] at hflat'
      injection hflat' with he
      rw [he]
      exact hl

/-- Witness for C9: the two-provider example of the spec — both providers
hold a skill named `x`, the composite returns exactly the second provider's
copy, and the theorem applies to that run. -/
theorem composite_provider_merges_by_name_witness :
    ((createCompositeProvider
        [{ getSkills := .ok
             [{ name := "x", description := "1", body := "", files := ["SKILL.md"] }],
           getSkillFile := fun _ _ => .ok none },
         { getSkills := .ok
             [{ name := "x", description := "2", body := "", files := ["SKILL.md"] }],
           getSkillFile := fun _ _ => .ok none }]).getSkills =
      .ok [{ name := "x", description := "2", body := "", files := ["SKILL.md"] }]) ∧
    (([({ name := "x", description := "2", body := "", files := ["SKILL.md"] } :
        Skill)]).map Skill.name).Nodup := by
  constructor
  · rfl
  · exact (composite_provider_merges_by_name
      [{ getSkills := .ok
           [{ name := "x", description := "1", body := "", files := ["SKILL.md"] }],
         getSkillFile := fun _ _ => .ok none },
       { getSkills := .ok
           [{ name := "x", description := "2", body := "", files := ["SKILL.md"] }],
         getSkillFile := fun _ _ => .ok none }]
      [{ name := "x", description := "2", body := "", files := ["SKILL.md"] }]
      rfl).1

/-- Witness for C5 (amended) at concrete inputs: the dotless path `json`
resolves through the whole-path key, `a.md` through the suffix key, and
`x.constructor` through the prototype-leak case. -/
theorem content_type_lookup_key_witness :
    getContentType "json" = contentTypeSpec (jsToLower "json") ∧
    getContentType "a.md" = contentTypeSpec (jsToLower (String.mk ['m', 'd'])) ∧
    getContentType "x.constructor" = contentTypeSpec (jsToLower (String.mk
      ['c', 'o', 'n', 's', 't', 'r', 'u', 'c', 't', 'o', 'r'])) := by
  refine ⟨?_, ?_, ?_⟩
  · exact (content_type_lookup_key "json").1 (by decide)
  · exact (content_type_lookup_key "a.md").2 ['a'] ['m', 'd'] (by decide)
      (by decide)
  · exact (content_type_lookup_key "x.constructor").2 ['x']
      ['c', 'o', 'n', 's', 't', 'r', 'u', 'c', 't', 'o', 'r'] (by decide)
      (by decide)

/-- C1 (code bug): the event-sink invocation has no failure boundary. With
an always-throwing sink and a healthy provider, a `GET` of the index makes
the handler's promise reject with the sink's exception instead of returning
a response: the `INDEX_REQUESTED` emission throws inside the `try`, and the
`catch` block's own `ERROR` emission throws again and escapes the handler. -/
theorem sink_throw_escapes_handler :
    handlerModel { getSkills := .ok [], getSkillFile := fun _ _ => .ok none }
      {} (some (fun _ => true)) 0
      { method := "GET", origin := "http://localhost",
        pathname := "/.well-known/skills/index.json" } =
      .error "event sink threw" := rfl

/-- C3: an invalid segment in `/{segment}/SKILL.md` yields 400
`{error: "Invalid skill name"}`; in `/{segment}/{rest}` an invalid segment
yields the same and an invalid rest yields 400
`{error: "Invalid file path"}` — each emitting a `NOT_FOUND`-typed event
(not `ERROR`) carrying the parsed identifiers; whereas a bare `/{segment}`
whose segment is invalid (and is not the index route) falls through to the
generic 404 `{error: "Not found"}` with a plain `NOT_FOUND` event. -/
theorem invalid_segment_responses (provider : SkillProvider)
    (cfg : SkillsHandlerConfig) (throws : SkillsEvent → Bool) (now : Nat)
    (req : Request) (rel : String)
    (hsink : ∀ e, throws e = false)
    (hm : jsToUpper req.method = "GET")
    (hrel : relativePathOf (stripTrailingSlash cfg.basePath) req.pathname = rel) :
    (∀ name, skillMdMatch rel = some name → isValidSkillName name = false →
      handlerModel provider cfg (some throws) now req =
        .ok (jsonResponse cfg 400 (jsonError "Invalid skill name"),
             [{ type := .NOT_FOUND, timestamp := now, path := req.pathname,
                skillName := some name }])) ∧
    (∀ name fp, skillMdMatch rel = none →
      skillFileMatch rel = some (name, fp) → isValidSkillName name = false →
      handlerModel provider cfg (some throws) now req =
        .ok (jsonResponse cfg 400 (jsonError "Invalid skill name"),
             [{ type := .NOT_FOUND, timestamp := now, path := req.pathname,
                skillName := some name }])) ∧
    (∀ name fp, skillMdMatch rel = none →
      skillFileMatch rel = some (name, fp) → isValidSkillName name = true →
      isValidFilePath fp = false →
      handlerModel provider cfg (some throws) now req =
        .ok (jsonResponse cfg 400 (jsonError "Invalid file path"),
             [{ type := .NOT_FOUND, timestamp := now, path := req.pathname,
                skillName := some name, filePath := some fp }])) ∧
    (∀ name, skillDirMatch rel = some name → rel ≠ "/index.json" →
      isValidSkillName name = false →
      handlerModel provider cfg (some throws) now req =
        .ok (jsonResponse cfg 404 (jsonError "Not found"),
             [{ type := .NOT_FOUND, timestamp := now,
                path := req.pathname }])) := by
  subst hrel
  have hgate := handler_gate provider cfg (some throws) now req (Or.inl hm)
  refine ⟨?_, ?_, ?_, ?_⟩
  · intro name hmatch hinval
    rw [hgate, dispatch_skillMd provider cfg (some throws) now req _ name hmatch,
      if_neg (Bool.eq_false_iff.mp hinval),
      runEmit_some_benign throws _ (hsink _)]
  · intro name fp hmd hf hinval
    rw [hgate,
      dispatch_skillFile provider cfg (some throws) now req _ name fp hmd hf,
      if_pos (by simp [hinval]), runEmit_some_benign throws _ (hsink _)]
  · intro name fp hmd hf hvalid hpinval
    rw [hgate,
      dispatch_skillFile provider cfg (some throws) now req _ name fp hmd hf,
      if_neg (by simp [hvalid]), if_pos (by simp [hpinval]),
      runEmit_some_benign throws _ (hsink _)]
  · intro name hd hne hinval
    rw [hgate,
      dispatch_skillDir provider cfg (some throws) now req _ name hd hne,
      if_neg (Bool.eq_false_iff.mp hinval),
      notFoundFallthrough_benign cfg throws now req.pathname hsink]

/-- Witness for C3 at a concrete run: `GET /.well-known/skills/Bad_Name/SKILL.md`
answers 400 with a `NOT_FOUND` event carrying the parsed name. -/
theorem invalid_segment_responses_witness :
    handlerModel { getSkills := .ok [], getSkillFile := fun _ _ => .ok none }
      {} (some (fun _ => false)) 3
      { method := "GET", origin := "http://localhost",
        pathname := "/.well-known/skills/Bad_Name/SKILL.md" } =
      .ok (jsonResponse {} 400 (jsonError "Invalid skill name"),
           [{ type := .NOT_FOUND, timestamp := 3,
              path := "/.well-known/skills/Bad_Name/SKILL.md",
              skillName := some "Bad_Name" }]) :=
  (invalid_segment_responses
    { getSkills := .ok [], getSkillFile := fun _ _ => .ok none }
    {} (fun _ => false) 3
    { method := "GET", origin := "http://localhost",
      pathname := "/.well-known/skills/Bad_Name/SKILL.md" }
    "/Bad_Name/SKILL.md"
    (fun _ => rfl) rfl (by decide)).1 "Bad_Name" (by decide) (by decide)

/-- C4 counterexample: with a provider whose `getSkills` rejects AND an
event sink that throws, a `GET` of the index makes the handler itself
reject — the claim's "the handler never raises; it always returns a
well-formed response object for every request" is false as stated. -/
theorem provider_error_sink_throw_counterexample :
    handlerModel
      { getSkills := .error "backend failure",
        getSkillFile := fun _ _ => .ok none }
      {} (some (fun _ => true)) 0
      { method := "GET", origin := "http://localhost",
        pathname := "/.well-known/skills/index.json" } =
      .error "event sink threw" := rfl

/-- C4 (amended): provided the configured event sink never throws, the
handler always returns a well-formed response; and for every request
dispatched (`GET` or `HEAD`) to the Index, SkillDocument or SkillFile
route, a provider failure is caught locally and answered with 500
`{error: "Internal server error"}` plus an `ERROR` event — it never
propagates. -/
theorem provider_errors_contained (provider : SkillProvider)
    (cfg : SkillsHandlerConfig) (throws : SkillsEvent → Bool) (now : Nat)
    (req : Request) (rel : String)
    (hsink : ∀ e, throws e = false)
    (hrel : relativePathOf (stripTrailingSlash cfg.basePath) req.pathname = rel) :
    (∃ resp evs,
      handlerModel provider cfg (some throws) now req = .ok (resp, evs)) ∧
    (∀ msg, jsToUpper req.method = "GET" ∨ jsToUpper req.method = "HEAD" →
      rel = "/index.json" →
      provider.getSkills = .error msg →
      handlerModel provider cfg (some throws) now req =
        .ok (jsonResponse cfg 500 (jsonError "Internal server error"),
             [{ type := .ERROR, timestamp := now, path := req.pathname,
                errorMsg := some msg }])) ∧
    (∀ msg name,
      jsToUpper req.method = "GET" ∨ jsToUpper req.method = "HEAD" →
      skillMdMatch rel = some name → isValidSkillName name = true →
      provider.getSkills = .error msg →
      handlerModel provider cfg (some throws) now req =
        .ok (jsonResponse cfg 500 (jsonError "Internal server error"),
             [{ type := .ERROR, timestamp := now, path := req.pathname,
                errorMsg := some msg, ctxSkillName := some name }])) ∧
    (∀ msg name fp,
      jsToUpper req.method = "GET" ∨ jsToUpper req.method = "HEAD" →
      skillMdMatch rel = none → skillFileMatch rel = some (name, fp) →
      isValidSkillName name = true → isValidFilePath fp = true →
      provider.getSkillFile name fp = .error msg →
      handlerModel provider cfg (some throws) now req =
        .ok (jsonResponse cfg 500 (jsonError "Internal server error"),
             [{ type := .ERROR, timestamp := now, path := req.pathname,
                errorMsg := some msg, ctxSkillName := some name,
                ctxFilePath := some fp }])) := by
  subst hrel
  have hb : BenignSink (some throws) := by
    intro s e hse
    cases hse
    exact hsink e
  refine ⟨handler_benign_total provider cfg (some throws) now req hb, ?_, ?_, ?_⟩
  · intro msg hm hidx hprov
    rw [handler_gate provider cfg (some throws) now req hm,
      dispatch_index provider cfg (some throws) now req _ hidx,
      serveIndex_provider_error provider cfg throws now req.pathname msg
        hprov hsink]
  · intro msg name hm hmatch hvalid hprov
    rw [handler_gate provider cfg (some throws) now req hm,
      dispatch_skillMd provider cfg (some throws) now req _ name hmatch,
      if_pos hvalid,
      serveSkillMd_provider_error provider cfg throws now name req.pathname
        msg hprov hsink]
  · intro msg name fp hm hmd hf hvalid hpvalid hprov
    rw [handler_gate provider cfg (some throws) now req hm,
      dispatch_skillFile provider cfg (some throws) now req _ name fp hmd hf,
      if_neg (by simp [hvalid]), if_neg (by simp [hpvalid]),
      serveSkillFile_provider_error provider cfg throws now name fp
        req.pathname msg hprov hsink]

/-- Witness for C4 (amended) at a concrete run: a rejecting provider and a
benign sink give the 500 body plus the `ERROR` event on the index route. -/
theorem provider_errors_contained_witness :
    handlerModel
      { getSkills := .error "boom", getSkillFile := fun _ _ => .ok none }
      {} (some (fun _ => false)) 5
      { method := "GET", origin := "http://localhost",
        pathname := "/.well-known/skills/index.json" } =
      .ok (jsonResponse {} 500 (jsonError "Internal server error"),
           [{ type := .ERROR, timestamp := 5,
              path := "/.well-known/skills/index.json",
              errorMsg := some "boom" }]) :=
  (provider_errors_contained
    { getSkills := .error "boom", getSkillFile := fun _ _ => .ok none }
    {} (fun _ => false) 5
    { method := "GET", origin := "http://localhost",
      pathname := "/.well-known/skills/index.json" }
    "/index.json" (fun _ => rfl) rfl).2.1 "boom" (Or.inl rfl) rfl rfl

/-- C10: stripping the configured base prefix is a raw string-prefix
operation, not segment-aligned: any pathname literally extending the
normalized base path is stripped even when the match does not end at a `/`;
in particular `/.well-known/skillsfoo` under the default base path is
normalized to `/foo` and answered as a SkillRedirect for `foo`. -/
theorem base_prefix_raw_stripping :
    (∀ base suffix : String, strStartsWith suffix "/" = false → suffix ≠ "" →
      strEndsWith suffix "/" = false →
      relativePathOf (stripTrailingSlash base)
        (stripTrailingSlash base ++ suffix) = "/" ++ suffix) ∧
    handlerModel { getSkills := .ok [], getSkillFile := fun _ _ => .ok none }
      {} none 0
      { method := "GET", origin := "http://localhost",
        pathname := "/.well-known/skillsfoo" } =
      .ok ({ status := 302,
             headers := [("Location",
               "http://localhost/.well-known/skills/foo/SKILL.md")],
             body := none }, []) :=
  ⟨fun base suffix h1 h2 h3 => relativePathOf_append base suffix h1 h2 h3, rfl⟩

/-- Witness for C10: the general raw-prefix lemma applied at the claim's
example — base `/.well-known/skills` and the non-slash-aligned remainder
`foo`. -/
theorem base_prefix_raw_stripping_witness :
    relativePathOf (stripTrailingSlash "/.well-known/skills")
      (stripTrailingSlash "/.well-known/skills" ++ "foo") = "/" ++ "foo" :=
  base_prefix_raw_stripping.1 "/.well-known/skills" "foo" (by decide)
    (by decide) (by decide)

end SkillsHandler
